import Mathlib

/-!
# N-body gravity demo (`Space_sims/n-body-problem-in-c++/main.cpp`)

A shallow embedding of the body entity, its trail subsystem, the pairwise
gravity solver and one frame of the main loop.

Number model.  The program computes in `float` (and `double` for the mass and
the constant `G`).  The main embedding is generic over a linearly ordered field `F`
and every `float`/`double` operation is the exact field operation: rounding,
overflow, infinities and NaN are outside that model.  A second embedding of
`updatePos` and of the solver, on the type `Fp`, rounds every operation as IEEE 754
binary32 or binary64 does; it decides the statements that depend on rounding,
overflow or underflow.  `std::sqrt` is not a field
operation, so it is an explicit parameter `sqrt : F → F` of the solver; results
that need a property of the square root state it as a hypothesis.  Instantiating
`F := ℚ` makes every definition executable.

Loop counters are `Nat`: the `int` counters of the solver are compared with
`bodies.size()`, which no step of the solver changes.
-/

namespace NBody

/-! ## Constants (`#define`s of the source) -/

section Constants
variable (F : Type) [LinearOrderedField F]

/-- The constant `G 6.674E-11`. -/
def G : F := 6.674e-11

/-- The constant `PIXEL_KM 20000.0f`. -/
def PIXEL_KM : F := 20000

/-- The constant `TRAIL_DROP_RATE 0.05f`. -/
def TRAIL_DROP_RATE : F := 0.05

/-- The constant `SİM_SPEDD 100.f` (simulation speed multiplier). -/
def SIM_SPEDD : F := 100

end Constants

/-! ## Library value types (SFML) -/

/-- Model of `sf::Vector2f`: a pair of coordinates. -/
structure Vector2f (F : Type) where
  x : F
  y : F
deriving DecidableEq

/-- Model of `sf::Color`: four 8-bit channels. -/
structure Color where
  r : Nat
  g : Nat
  b : Nat
  a : Nat
deriving DecidableEq

/-- Model of `sf::CircleShape`, restricted to the properties the program sets or reads. -/
structure CircleShape (F : Type) where
  position : Vector2f F
  radius : F
  origin : Vector2f F
  fillColor : Color
deriving DecidableEq

/-- Model of `sf::Clock`: the instant of construction or of the last restart.
The elapsed time at instant `now` is `now - startTime`. -/
structure Clock (F : Type) where
  startTime : F
deriving DecidableEq

/-- The class `Body : public sf::CircleShape`. -/
structure Body (F : Type) extends CircleShape F where
  mass : F
  velocity : Vector2f F
  acceleration : Vector2f F
  trail : Bool
  trailPoints : List (CircleShape F)
  trailClock : Clock F
deriving DecidableEq

section Ops
variable {F : Type} [LinearOrderedField F]

instance : Zero (Vector2f F) := ⟨⟨0, 0⟩⟩

/-- Componentwise `operator+` of `sf::Vector2f` (also used for `+=`). -/
instance : Add (Vector2f F) := ⟨fun v w => ⟨v.x + w.x, v.y + w.y⟩⟩

/-- Componentwise `operator-` of `sf::Vector2f`. -/
instance : Sub (Vector2f F) := ⟨fun v w => ⟨v.x - w.x, v.y - w.y⟩⟩

/-- Unary `operator-` of `sf::Vector2f`. -/
instance : Neg (Vector2f F) := ⟨fun v => ⟨-v.x, -v.y⟩⟩

/-- Scaling `operator*(T, Vector2<T>)`. -/
instance : HMul F (Vector2f F) (Vector2f F) := ⟨fun t v => ⟨v.x * t, v.y * t⟩⟩

/-- Scaling `operator*(Vector2<T>, T)`. -/
instance : HMul (Vector2f F) F (Vector2f F) := ⟨fun v t => ⟨v.x * t, v.y * t⟩⟩

/-- Division `operator/(Vector2<T>, T)`. -/
instance : HDiv (Vector2f F) F (Vector2f F) := ⟨fun v t => ⟨v.x / t, v.y / t⟩⟩

/-- The colour constants used by `main`. -/
def Color.Yellow : Color := ⟨255, 255, 0, 255⟩

/-- The colour `sf::Color::Green`. -/
def Color.Green : Color := ⟨0, 255, 0, 255⟩

/-- The colour `sf::Color::Blue`. -/
def Color.Blue : Color := ⟨0, 0, 255, 255⟩

/-- The colour `sf::Color::White`, the default fill colour of a shape. -/
def Color.White : Color := ⟨255, 255, 255, 255⟩

/-- The constructor `sf::CircleShape(radius)`: default position, origin and fill colour. -/
def CircleShape.new (radius : F) : CircleShape F :=
  { position := ⟨0, 0⟩, radius := radius, origin := ⟨0, 0⟩, fillColor := Color.White }

/-- The member `sf::Clock::getElapsedTime().asSeconds()` read at instant `now`. -/
def Clock.getElapsedTime (c : Clock F) (now : F) : F := now - c.startTime

/-- The member `sf::Clock::restart()` executed at instant `now`. -/
def Clock.restart (_c : Clock F) (now : F) : Clock F := ⟨now⟩

/-! ## Body -/

/-- The member constant `maxTrailLength = 200`. -/
def maxTrailLength : Nat := 200

/-- The constructor `Body::Body(x, y, r, m, color, t)`; `now` is the instant at which
the embedded `trailClock` is constructed. -/
def Body.new (x y r m : F) (color : Color) (t : Bool) (now : F) : Body F :=
  { position := ⟨x, y⟩
    radius := r
    origin := ⟨r, r⟩
    fillColor := color
    mass := m
    velocity := ⟨0, 0⟩
    acceleration := ⟨0, 0⟩
    trail := t
    trailPoints := []
    trailClock := ⟨now⟩ }

/-- The method `Body::updateTrail()`; `now` is the instant at which the call reads
(and, when it records a sample, restarts) `trailClock`. -/
def Body.updateTrail (now : F) (b : Body F) : Body F :=
  if !b.trail then b
  else if b.trailClock.getElapsedTime now ≥ TRAIL_DROP_RATE F then
    let point : CircleShape F := CircleShape.new 1
    let point := { point with position := b.position }
    let trailColor := b.fillColor
    let trailColor := { trailColor with a := 150 }
    let point := { point with fillColor := trailColor }
    let trailPoints := b.trailPoints ++ [point]
    let trailPoints :=
      if trailPoints.length > maxTrailLength then trailPoints.eraseIdx 0 else trailPoints
    { b with trailPoints := trailPoints, trailClock := b.trailClock.restart now }
  else b

/-- The method `Body::updatePos(dt)`; `now` is the clock instant seen by the trail update. -/
def Body.updatePos (dt now : F) (b : Body F) : Body F :=
  let velocity := b.velocity + b.acceleration * dt
  let movement : Vector2f F := (velocity / PIXEL_KM F) * dt
  let b := { b with velocity := velocity, position := b.position + movement }
  b.updateTrail now

/-- A sequence of calls `updatePos(dt)` on one body: each step is the pair of the time step
`dt` and the clock instant of that call. -/
def Body.updatePosSeq (steps : List (F × F)) (b : Body F) : Body F :=
  steps.foldl (fun b s => b.updatePos s.1 s.2) b

/-- A sequence of calls `updateTrail()` on one body, the body being placed with
`setPosition(p)` before each call: each step is the pair of the position `p` and the clock
instant of that call. -/
def Body.updateTrailSeq (samples : List (Vector2f F × F)) (b : Body F) : Body F :=
  samples.foldl (fun b s => ({ b with position := s.1 } : Body F).updateTrail s.2) b

/-- A sequence of frames as one body sees them: in each step the solver writes the body's
acceleration and then `updatePos(dt)` is called; a step is the triple of the acceleration
written, the time step `dt` and the clock instant of the call. -/
def Body.advanceSeq (steps : List (Vector2f F × F × F)) (b : Body F) : Body F :=
  steps.foldl (fun b s => ({ b with acceleration := s.1 } : Body F).updatePos s.2.1 s.2.2) b

/-! ## Gravity solver -/

/-- The statement `bodies[k].acceleration += a` on the `k`-th element of the vector. -/
def addAcceleration (bodies : List (Body F)) (k : Nat) (a : Vector2f F) : List (Body F) :=
  match bodies[k]? with
  | some b => bodies.set k { b with acceleration := b.acceleration + a }
  | none => bodies

/-- The body of the inner loop of `calculateGravityEffects` for the pair `(i, j)`. -/
def pairStep (sqrt : F → F) (bodies : List (Body F)) (i j : Nat) : List (Body F) :=
  match bodies[i]?, bodies[j]? with
  | some body1, some body2 =>
    let direction := body2.position - body1.position
    let r_sq := direction.x * direction.x + direction.y * direction.y
    let r := sqrt r_sq
    if r_sq < 1 then bodies
    else
      let r_km := r * PIXEL_KM F
      let r_sq_km := r_km * r_km
      let acc_mag_1 := G F * body2.mass / r_sq_km
      let acc_mag_2 := G F * body1.mass / r_sq_km
      let unit_direction := direction / r
      let bodies := addAcceleration bodies i (acc_mag_1 * unit_direction)
      addAcceleration bodies j (acc_mag_2 * -unit_direction)
  | _, _ => bodies

/-- The inner loop `for (int j = i + 1; j < bodies.size(); j++)`. -/
def innerLoop (sqrt : F → F) (bodies : List (Body F)) (i : Nat) : List (Body F) :=
  (List.range' (i + 1) (bodies.length - (i + 1))).foldl (fun bs j => pairStep sqrt bs i j) bodies

/-- The first loop of `calculateGravityEffects`: every acceleration is set to `(0, 0)`. -/
def resetAccelerations (bodies : List (Body F)) : List (Body F) :=
  bodies.map fun body => { body with acceleration := ⟨0, 0⟩ }

/-- The function `calculateGravityEffects(bodies)`. -/
def calculateGravityEffects (sqrt : F → F) (bodies : List (Body F)) : List (Body F) :=
  let bodies := resetAccelerations bodies
  (List.range bodies.length).foldl (fun bs i => innerLoop sqrt bs i) bodies

/-! ## Gravity solver with checked division -/

/-- Scalar division `a / b` as a partial operation: it fails on a zero divisor. -/
def checkedDiv (a b : F) : Option F :=
  if b = 0 then none else some (a / b)

/-- Division `operator/(Vector2<T>, T)` as a partial operation: it fails on a zero divisor. -/
def checkedDivVec (v : Vector2f F) (t : F) : Option (Vector2f F) :=
  if t = 0 then none else some (v / t)

/-- The body of the inner loop of `calculateGravityEffects` for the pair `(i, j)`, every
division of the source being checked: `none` is the error branch. -/
def pairStepChecked (sqrt : F → F) (bodies : List (Body F)) (i j : Nat) :
    Option (List (Body F)) :=
  match bodies[i]?, bodies[j]? with
  | some body1, some body2 =>
    let direction := body2.position - body1.position
    let r_sq := direction.x * direction.x + direction.y * direction.y
    let r := sqrt r_sq
    if r_sq < 1 then some bodies
    else
      let r_km := r * PIXEL_KM F
      let r_sq_km := r_km * r_km
      do
        let acc_mag_1 ← checkedDiv (G F * body2.mass) r_sq_km
        let acc_mag_2 ← checkedDiv (G F * body1.mass) r_sq_km
        let unit_direction ← checkedDivVec direction r
        let bodies := addAcceleration bodies i (acc_mag_1 * unit_direction)
        pure (addAcceleration bodies j (acc_mag_2 * -unit_direction))
  | _, _ => some bodies

/-- The inner loop of `calculateGravityEffects` with checked division. -/
def innerLoopChecked (sqrt : F → F) (bodies : List (Body F)) (i : Nat) :
    Option (List (Body F)) :=
  (List.range' (i + 1) (bodies.length - (i + 1))).foldlM
    (fun bs j => pairStepChecked sqrt bs i j) bodies

/-- The function `calculateGravityEffects(bodies)` with checked division. -/
def calculateGravityEffectsChecked (sqrt : F → F) (bodies : List (Body F)) :
    Option (List (Body F)) :=
  let bodies := resetAccelerations bodies
  (List.range bodies.length).foldlM (fun bs i => innerLoopChecked sqrt bs i) bodies

/-! ## Application driver -/

/-- The constant `WIDTH` of `main`. -/
def WIDTH : Nat := 1920

/-- The constant `HEIGHT` of `main`. -/
def HEIGHT : Nat := 1080

/-- The initial scenario built by `main` with three `emplace_back` calls and two velocity
overrides; `startAt k` is the instant at which the `k`-th body is constructed.  The
expressions `WIDTH/2` and `HEIGHT/2` are integer divisions. -/
def initialBodies (startAt : Nat → F) : List (Body F) :=
  let bodies : List (Body F) := []
  let bodies := bodies ++
    [Body.new ((WIDTH / 2 : Nat) : F) ((HEIGHT / 2 : Nat) : F) 25 5e24 Color.Yellow false (startAt 0)]
  let bodies := bodies ++
    [{ Body.new (((WIDTH / 2 : Nat) : F) + 150) ((HEIGHT / 2 : Nat) : F) 10 5e15 Color.Green true
        (startAt 1) with velocity := ⟨0, 10000⟩ }]
  let bodies := bodies ++
    [{ Body.new (((WIDTH / 2 : Nat) : F) - 200) ((HEIGHT / 2 : Nat) : F) 16 5e23 Color.Blue true
        (startAt 2) with velocity := ⟨0, -9000⟩ }]
  bodies

/-- The loop `for (auto& body : bodies) body.updatePos(dt)`, from index `k` on;
`clockAt k` is the instant at which the trail update of the `k`-th body reads its clock. -/
def updateAll (dt : F) (clockAt : Nat → F) : Nat → List (Body F) → List (Body F)
  | _, [] => []
  | k, body :: rest => body.updatePos dt (clockAt k) :: updateAll dt clockAt (k + 1) rest

/-- The state-changing part of one iteration of the main loop: `elapsed` is the value of
`clock.restart().asSeconds()`; rendering is not modelled. -/
def frame (sqrt : F → F) (elapsed : F) (clockAt : Nat → F) (bodies : List (Body F)) :
    List (Body F) :=
  let dt := elapsed
  let dt := dt * SIM_SPEDD F
  let bodies := calculateGravityEffects sqrt bodies
  updateAll dt clockAt 0 bodies

/-! ## Specification-side definitions -/

/-- Vectors form a commutative group under the componentwise operations above; this gives
sums of vectors their usual algebra. -/
instance : AddCommGroup (Vector2f F) where
  add := (· + ·)
  zero := 0
  neg := Neg.neg
  sub := Sub.sub
  nsmul := nsmulRec
  zsmul := zsmulRec
  add_assoc u v w := congrArg₂ Vector2f.mk (add_assoc u.x v.x w.x) (add_assoc u.y v.y w.y)
  zero_add v := congrArg₂ Vector2f.mk (zero_add v.x) (zero_add v.y)
  add_zero v := congrArg₂ Vector2f.mk (add_zero v.x) (add_zero v.y)
  add_comm u v := congrArg₂ Vector2f.mk (add_comm u.x v.x) (add_comm u.y v.y)
  neg_add_cancel v := congrArg₂ Vector2f.mk (neg_add_cancel v.x) (neg_add_cancel v.y)
  sub_eq_add_neg u v :=
    congrArg₂ Vector2f.mk (sub_eq_add_neg u.x v.x) (sub_eq_add_neg u.y v.y)

/-- The squared pixel separation `|position(j) - position(i)|^2` of two bodies. -/
def sepSq (bi bj : Body F) : F :=
  (bj.position - bi.position).x * (bj.position - bi.position).x
    + (bj.position - bi.position).y * (bj.position - bi.position).y

/-- The law of the specification for one pair: the acceleration of body `bi` due to body
`bj`, `(G * mass(j) / (20000 * r)^2) * (p_j - p_i) / r` with `r` the square root of the
squared pixel separation. -/
def pull (sqrt : F → F) (bi bj : Body F) : Vector2f F :=
  (G F * bj.mass / (20000 * sqrt (sepSq bi bj)) ^ 2)
    * ((bj.position - bi.position) / sqrt (sepSq bi bj))

/-- The naive all-pairs sum of the specification for body `i`: the sum, over every other body
`j ≠ i` whose squared pixel separation from body `i` is at least 1, of the acceleration of
body `i` due to body `j`. -/
def naiveAcceleration (sqrt : F → F) (bodies : List (Body F)) (i : Nat) : Vector2f F :=
  match bodies[i]? with
  | none => 0
  | some bi =>
    ((bodies.enum.filter fun jb => decide (jb.1 ≠ i) && decide (1 ≤ sepSq bi jb.2)).map
      fun jb => pull sqrt bi jb.2).sum

/-- The acceleration that the pair of bodies `k`, `j` of a collection gives to body `k`: the
law `pull`, or zero when the pair is closer than one pixel or an index is out of range. -/
def pairAcc (sqrt : F → F) (bodies : List (Body F)) (k j : Nat) : Vector2f F :=
  match bodies[k]?, bodies[j]? with
  | some bk, some bj => if sepSq bk bj < 1 then 0 else pull sqrt bk bj
  | _, _ => 0

/-- The mass-weighted sum of the accelerations of a collection, `Σ mass(k) * acceleration(k)`. -/
def massWeightedSum (bodies : List (Body F)) : Vector2f F :=
  (bodies.map fun b => b.mass * b.acceleration).sum

/-- The sum over all bodies `c` of a collection of the acceleration that `c` gives to a body
`b` under the guard: the law `pull`, or zero when `c` is closer than one pixel to `b`. -/
def netPull (sqrt : F → F) (bodies : List (Body F)) (b : Body F) : Vector2f F :=
  (bodies.map fun c => if sepSq b c < 1 then 0 else pull sqrt b c).sum

end Ops

/-! ## Floating-point model

The definitions above compute in an exact field.  The definitions of this part follow the
same source lines in IEEE 754 arithmetic, every operation being rounded to nearest, ties to
even: binary32 for `float`, binary64 for `double`.  They serve to decide what the exact
model cannot: absorption of small steps, overflow to infinity, underflow to zero, NaN. -/

/-- An IEEE 754 value: NaN, an infinity, or a finite rational.  The sign of a zero is not
kept: `+0` and `-0` are both `fin 0`. -/
inductive Fp where
  | nan : Fp
  | inf (negative : Bool) : Fp
  | fin (q : ℚ) : Fp
deriving DecidableEq

/-- Rounding of a rational to the nearest integer, a tie going to the even one. -/
def roundHalfEven (x : ℚ) : ℤ :=
  if x - ⌊x⌋ < 1 / 2 then ⌊x⌋
  else if 1 / 2 < x - ⌊x⌋ then ⌊x⌋ + 1
  else if ⌊x⌋ % 2 = 0 then ⌊x⌋ else ⌊x⌋ + 1

/-- A binary floating-point format: the number of significand bits and the largest
exponent; the smallest normal exponent is `1 - emax`. -/
structure Format where
  prec : Nat
  emax : Int

/-- The format of `float`. -/
def binary32 : Format := ⟨24, 127⟩

/-- The format of `double`. -/
def binary64 : Format := ⟨53, 1023⟩

/-- Rounding of a rational to a format, to nearest with ties to even: the exponent is that
of the value, or the smallest normal one for a subnormal; the result is an infinity when the
rounded magnitude exceeds the largest finite value. -/
def Format.round (fmt : Format) (q : ℚ) : Fp :=
  if q = 0 then Fp.fin 0
  else
    let e : ℤ := max (Int.log 2 |q|) (1 - fmt.emax)
    let quantum : ℚ := 2 ^ (e - (fmt.prec - 1))
    let r : ℚ := roundHalfEven (q / quantum) * quantum
    if 2 ^ (fmt.emax + 1) ≤ |r| then Fp.inf (decide (q < 0)) else Fp.fin r

/-- Unary minus. -/
def Fp.neg : Fp → Fp
  | Fp.nan => Fp.nan
  | Fp.inf s => Fp.inf (!s)
  | Fp.fin q => Fp.fin (-q)

/-- Addition in a format. -/
def Fp.add (fmt : Format) : Fp → Fp → Fp
  | Fp.nan, _ => Fp.nan
  | _, Fp.nan => Fp.nan
  | Fp.inf s, Fp.inf t => if s = t then Fp.inf s else Fp.nan
  | Fp.inf s, Fp.fin _ => Fp.inf s
  | Fp.fin _, Fp.inf t => Fp.inf t
  | Fp.fin a, Fp.fin b => fmt.round (a + b)

/-- Subtraction in a format. -/
def Fp.sub (fmt : Format) (a b : Fp) : Fp := Fp.add fmt a (Fp.neg b)

/-- Multiplication in a format; infinity times zero is NaN. -/
def Fp.mul (fmt : Format) : Fp → Fp → Fp
  | Fp.nan, _ => Fp.nan
  | _, Fp.nan => Fp.nan
  | Fp.inf s, Fp.inf t => Fp.inf (s != t)
  | Fp.inf s, Fp.fin b => if b = 0 then Fp.nan else Fp.inf (s != decide (b < 0))
  | Fp.fin a, Fp.inf t => if a = 0 then Fp.nan else Fp.inf (decide (a < 0) != t)
  | Fp.fin a, Fp.fin b => fmt.round (a * b)

/-- Division in a format.  A zero divisor is taken as `+0`: the quotient of a non-zero
finite value or of an infinity by zero is the infinity of the sign of the dividend. -/
def Fp.div (fmt : Format) : Fp → Fp → Fp
  | Fp.nan, _ => Fp.nan
  | _, Fp.nan => Fp.nan
  | Fp.inf _, Fp.inf _ => Fp.nan
  | Fp.inf s, Fp.fin b => Fp.inf (s != decide (b < 0))
  | Fp.fin _, Fp.inf _ => Fp.fin 0
  | Fp.fin a, Fp.fin b =>
    if b = 0 then (if a = 0 then Fp.nan else Fp.inf (decide (a < 0))) else fmt.round (a / b)

/-- The comparison `a < b`; false when an operand is NaN. -/
def Fp.lt : Fp → Fp → Bool
  | Fp.nan, _ => false
  | _, Fp.nan => false
  | Fp.inf s, Fp.inf t => s && !t
  | Fp.inf s, Fp.fin _ => s
  | Fp.fin _, Fp.inf t => !t
  | Fp.fin a, Fp.fin b => decide (a < b)

/-- The comparison `a >= b`; false when an operand is NaN. -/
def Fp.ge : Fp → Fp → Bool
  | Fp.nan, _ => false
  | _, Fp.nan => false
  | Fp.inf s, Fp.inf t => !s || t
  | Fp.inf s, Fp.fin _ => !s
  | Fp.fin _, Fp.inf t => t
  | Fp.fin a, Fp.fin b => decide (b ≤ a)

/-- Conversion to a format, as in the cast `(float)` of a `double`. -/
def Fp.cast (fmt : Format) : Fp → Fp
  | Fp.fin q => fmt.round q
  | x => x

/-- Componentwise `operator+` of `sf::Vector2f` in binary32. -/
def Vector2f.addFp (v w : Vector2f Fp) : Vector2f Fp :=
  ⟨Fp.add binary32 v.x w.x, Fp.add binary32 v.y w.y⟩

/-- Componentwise `operator-` of `sf::Vector2f` in binary32. -/
def Vector2f.subFp (v w : Vector2f Fp) : Vector2f Fp :=
  ⟨Fp.sub binary32 v.x w.x, Fp.sub binary32 v.y w.y⟩

/-- Unary `operator-` of `sf::Vector2f`. -/
def Vector2f.negFp (v : Vector2f Fp) : Vector2f Fp := ⟨Fp.neg v.x, Fp.neg v.y⟩

/-- Scaling of an `sf::Vector2f` by a `float` in binary32. -/
def Vector2f.mulFp (v : Vector2f Fp) (t : Fp) : Vector2f Fp :=
  ⟨Fp.mul binary32 v.x t, Fp.mul binary32 v.y t⟩

/-- Division `operator/(Vector2<T>, T)` in binary32. -/
def Vector2f.divFp (v : Vector2f Fp) (t : Fp) : Vector2f Fp :=
  ⟨Fp.div binary32 v.x t, Fp.div binary32 v.y t⟩

/-- The constant `G 6.674E-11`, a `double` literal. -/
def GFp : Fp := binary64.round 6.674e-11

/-- The constant `PIXEL_KM 20000.0f`, a `float` literal. -/
def PIXEL_KMFp : Fp := binary32.round 20000

/-- The constant `TRAIL_DROP_RATE 0.05f`, a `float` literal. -/
def TRAIL_DROP_RATEFp : Fp := binary32.round 0.05

/-- The constructor `Body::Body(x, y, r, m, color, t)` on floating-point values. -/
def Body.newFp (x y r m : Fp) (color : Color) (t : Bool) (start : Fp) : Body Fp :=
  { position := ⟨x, y⟩
    radius := r
    origin := ⟨r, r⟩
    fillColor := color
    mass := m
    velocity := ⟨Fp.fin 0, Fp.fin 0⟩
    acceleration := ⟨Fp.fin 0, Fp.fin 0⟩
    trail := t
    trailPoints := []
    trailClock := ⟨start⟩ }

/-- The method `Body::updateTrail()` on floating-point values; `elapsed` is the `float`
returned by `trailClock.getElapsedTime().asSeconds()` and `now` the instant of the restart. -/
def Body.updateTrailFp (elapsed now : Fp) (b : Body Fp) : Body Fp :=
  if !b.trail then b
  else if Fp.ge elapsed TRAIL_DROP_RATEFp then
    let point : CircleShape Fp :=
      { position := b.position, radius := Fp.fin 1, origin := ⟨Fp.fin 0, Fp.fin 0⟩,
        fillColor := { b.fillColor with a := 150 } }
    let trailPoints := b.trailPoints ++ [point]
    let trailPoints :=
      if trailPoints.length > maxTrailLength then trailPoints.eraseIdx 0 else trailPoints
    { b with trailPoints := trailPoints, trailClock := ⟨now⟩ }
  else b

/-- The method `Body::updatePos(dt)` in binary32 arithmetic. -/
def Body.updatePosFp (dt elapsed now : Fp) (b : Body Fp) : Body Fp :=
  let velocity := b.velocity.addFp (b.acceleration.mulFp dt)
  let movement := (velocity.divFp PIXEL_KMFp).mulFp dt
  let b := { b with velocity := velocity, position := b.position.addFp movement }
  b.updateTrailFp elapsed now

/-- The statement `bodies[k].acceleration += a` in binary32 arithmetic. -/
def addAccelerationFp (bodies : List (Body Fp)) (k : Nat) (a : Vector2f Fp) :
    List (Body Fp) :=
  match bodies[k]? with
  | some b => bodies.set k { b with acceleration := b.acceleration.addFp a }
  | none => bodies

/-- The body of the inner loop of `calculateGravityEffects` for the pair `(i, j)` in
floating-point arithmetic: `float` operations in binary32, the two magnitudes computed in
binary64 (`G` and the mass are `double`) and cast to `float`. -/
def pairStepFp (sqrt : Fp → Fp) (bodies : List (Body Fp)) (i j : Nat) : List (Body Fp) :=
  match bodies[i]?, bodies[j]? with
  | some body1, some body2 =>
    let direction := body2.position.subFp body1.position
    let r_sq := Fp.add binary32 (Fp.mul binary32 direction.x direction.x)
      (Fp.mul binary32 direction.y direction.y)
    let r := sqrt r_sq
    if Fp.lt r_sq (Fp.fin 1) then bodies
    else
      let r_km := Fp.mul binary32 r PIXEL_KMFp
      let r_sq_km := Fp.mul binary32 r_km r_km
      let acc_mag_1 := Fp.cast binary32 (Fp.div binary64 (Fp.mul binary64 GFp body2.mass) r_sq_km)
      let acc_mag_2 := Fp.cast binary32 (Fp.div binary64 (Fp.mul binary64 GFp body1.mass) r_sq_km)
      let unit_direction := direction.divFp r
      let bodies := addAccelerationFp bodies i (unit_direction.mulFp acc_mag_1)
      addAccelerationFp bodies j (unit_direction.negFp.mulFp acc_mag_2)
  | _, _ => bodies

/-- The inner loop of `calculateGravityEffects` in floating-point arithmetic. -/
def innerLoopFp (sqrt : Fp → Fp) (bodies : List (Body Fp)) (i : Nat) : List (Body Fp) :=
  (List.range' (i + 1) (bodies.length - (i + 1))).foldl
    (fun bs j => pairStepFp sqrt bs i j) bodies

/-- The function `calculateGravityEffects(bodies)` in floating-point arithmetic. -/
def calculateGravityEffectsFp (sqrt : Fp → Fp) (bodies : List (Body Fp)) : List (Body Fp) :=
  let bodies := bodies.map fun body => { body with acceleration := ⟨Fp.fin 0, Fp.fin 0⟩ }
  (List.range bodies.length).foldl (fun bs i => innerLoopFp sqrt bs i) bodies

/-- A square root for the concrete floating-point runs: NaN on NaN and on negative values,
`+∞` on `+∞`, and on a finite non-negative value the rounding of `Rat.sqrt`, which is the
exact root on squares of rationals. -/
def sqrtOnSquares : Fp → Fp
  | Fp.nan => Fp.nan
  | Fp.inf s => if s then Fp.nan else Fp.inf false
  | Fp.fin q => if q < 0 then Fp.nan else binary32.round (Rat.sqrt q)

/-- The values that no rounding can have turned into a zero: NaN, the infinities and the
finite values of magnitude at least 1. -/
def Fp.awayFromZero : Fp → Bool
  | Fp.fin q => decide (1 ≤ |q|)
  | _ => true

/-- Division in a format as a partial operation: it fails on a zero divisor. -/
def Fp.divChecked (fmt : Format) (a b : Fp) : Option Fp :=
  if b = Fp.fin 0 then none else some (Fp.div fmt a b)

/-- Division `operator/(Vector2<T>, T)` in binary32 as a partial operation: it fails on a
zero divisor. -/
def Vector2f.divFpChecked (v : Vector2f Fp) (t : Fp) : Option (Vector2f Fp) :=
  if t = Fp.fin 0 then none else some (v.divFp t)

/-- The pair step in floating-point arithmetic, every division of the source being checked:
`none` is the error branch. -/
def pairStepFpChecked (sqrt : Fp → Fp) (bodies : List (Body Fp)) (i j : Nat) :
    Option (List (Body Fp)) :=
  match bodies[i]?, bodies[j]? with
  | some body1, some body2 =>
    let direction := body2.position.subFp body1.position
    let r_sq := Fp.add binary32 (Fp.mul binary32 direction.x direction.x)
      (Fp.mul binary32 direction.y direction.y)
    let r := sqrt r_sq
    if Fp.lt r_sq (Fp.fin 1) then some bodies
    else
      let r_km := Fp.mul binary32 r PIXEL_KMFp
      let r_sq_km := Fp.mul binary32 r_km r_km
      do
        let q1 ← Fp.divChecked binary64 (Fp.mul binary64 GFp body2.mass) r_sq_km
        let acc_mag_1 := Fp.cast binary32 q1
        let q2 ← Fp.divChecked binary64 (Fp.mul binary64 GFp body1.mass) r_sq_km
        let acc_mag_2 := Fp.cast binary32 q2
        let unit_direction ← direction.divFpChecked r
        let bodies := addAccelerationFp bodies i (unit_direction.mulFp acc_mag_1)
        pure (addAccelerationFp bodies j (unit_direction.negFp.mulFp acc_mag_2))
  | _, _ => some bodies

/-- The inner loop of the floating-point solver with checked division. -/
def innerLoopFpChecked (sqrt : Fp → Fp) (bodies : List (Body Fp)) (i : Nat) :
    Option (List (Body Fp)) :=
  (List.range' (i + 1) (bodies.length - (i + 1))).foldlM
    (fun bs j => pairStepFpChecked sqrt bs i j) bodies

/-- The floating-point solver with checked division. -/
def calculateGravityEffectsFpChecked (sqrt : Fp → Fp) (bodies : List (Body Fp)) :
    Option (List (Body Fp)) :=
  let bodies := bodies.map fun body => { body with acceleration := ⟨Fp.fin 0, Fp.fin 0⟩ }
  (List.range bodies.length).foldlM (fun bs i => innerLoopFpChecked sqrt bs i) bodies

/-! ## Sample data for the floating-point runs -/

/-- A body of mass `1e58` (as a `double`) at the origin. -/
def fpHeavy : Body Fp :=
  Body.newFp (Fp.fin 0) (Fp.fin 0) (Fp.fin 1) (binary64.round 1e58) Color.Yellow false (Fp.fin 0)

/-- A body of mass 1 at `(1, 0)`. -/
def fpUnit : Body Fp :=
  Body.newFp (Fp.fin 1) (Fp.fin 0) (Fp.fin 1) (Fp.fin 1) Color.Green false (Fp.fin 0)

/-- A body of mass `1e-30` (as a `double`) at the origin. -/
def fpLightA : Body Fp :=
  Body.newFp (Fp.fin 0) (Fp.fin 0) (Fp.fin 1) (binary64.round 1e-30) Color.Yellow false (Fp.fin 0)

/-- A body of mass `1e-30` (as a `double`) at `(1, 0)`. -/
def fpLightB : Body Fp :=
  Body.newFp (Fp.fin 1) (Fp.fin 0) (Fp.fin 1) (binary64.round 1e-30) Color.Green false (Fp.fin 0)

/-- A trail-off body at `(960, 540)` with velocity `(1/2, -1/2)` and zero acceleration. -/
def fpMover : Body Fp :=
  { Body.newFp (Fp.fin 960) (Fp.fin 540) (Fp.fin 1) (Fp.fin 1) Color.Yellow false (Fp.fin 0) with
    velocity := ⟨Fp.fin (1 / 2), Fp.fin (-1 / 2)⟩ }

/-! ## Sample data over `ℚ` for the concrete checks -/

/-- A body of mass 2 at the origin, holding a stale acceleration. -/
def sampleA : Body ℚ :=
  { Body.new 0 0 1 2 Color.Yellow false 0 with acceleration := ⟨7, -3⟩ }

/-- A body of mass 3 at `(3, 4)`, five pixels from `sampleA`, holding a stale acceleration. -/
def sampleB : Body ℚ :=
  { Body.new 3 4 1 3 Color.Green true 0 with acceleration := ⟨1, 1⟩ }

/-- A body of mass 5 at `(1/2, 0)`, half a pixel from `sampleA`. -/
def sampleNear : Body ℚ :=
  { Body.new (1 / 2) 0 1 5 Color.Blue true 0 with acceleration := ⟨2, 2⟩ }

/-- The body `sampleB` with a trail history filled to capacity. -/
def sampleFull : Body ℚ :=
  { sampleB with trailPoints := List.replicate 200 (CircleShape.new 1) }

/-- A track of 201 positions `(k, 0)`, sampled at the instants `k = 1, ..., 201`. -/
def sampleTrack : List (Vector2f ℚ × ℚ) :=
  (List.range' 1 201).map fun (k : Nat) => (⟨(k : ℚ), 0⟩, (k : ℚ))

/-- A body at the origin with velocity `(10000, -20000)` and zero acceleration. -/
def sampleMover : Body ℚ :=
  { Body.new 0 0 1 2 Color.Yellow true 0 with velocity := ⟨10000, -20000⟩ }

/-- Three `updatePos` steps of total duration `7/2`, at the instants 1, 2 and 3. -/
def sampleSteps : List (ℚ × ℚ) := [(1, 1), (2, 2), (1 / 2, 3)]

/-! ## Componentwise lemmas for vectors -/

@[ext]
theorem Vector2f.ext_xy {F : Type} {v w : Vector2f F} (hx : v.x = w.x) (hy : v.y = w.y) :
    v = w := by
  cases v; cases w; simp_all

section VectorLemmas
variable {F : Type} [LinearOrderedField F]

@[simp] theorem Vector2f.add_x (v w : Vector2f F) : (v + w).x = v.x + w.x := rfl
@[simp] theorem Vector2f.add_y (v w : Vector2f F) : (v + w).y = v.y + w.y := rfl
@[simp] theorem Vector2f.sub_x (v w : Vector2f F) : (v - w).x = v.x - w.x := rfl
@[simp] theorem Vector2f.sub_y (v w : Vector2f F) : (v - w).y = v.y - w.y := rfl
@[simp] theorem Vector2f.neg_x (v : Vector2f F) : (-v).x = -v.x := rfl
@[simp] theorem Vector2f.neg_y (v : Vector2f F) : (-v).y = -v.y := rfl
@[simp] theorem Vector2f.smul_x (t : F) (v : Vector2f F) : (t * v).x = v.x * t := rfl
@[simp] theorem Vector2f.smul_y (t : F) (v : Vector2f F) : (t * v).y = v.y * t := rfl
@[simp] theorem Vector2f.mul_x (v : Vector2f F) (t : F) : (v * t).x = v.x * t := rfl
@[simp] theorem Vector2f.mul_y (v : Vector2f F) (t : F) : (v * t).y = v.y * t := rfl
@[simp] theorem Vector2f.div_x (v : Vector2f F) (t : F) : (v / t).x = v.x / t := rfl
@[simp] theorem Vector2f.div_y (v : Vector2f F) (t : F) : (v / t).y = v.y / t := rfl
@[simp] theorem Vector2f.zero_x : (0 : Vector2f F).x = 0 := rfl
@[simp] theorem Vector2f.zero_y : (0 : Vector2f F).y = 0 := rfl

end VectorLemmas

/-! ## Body: trail and position update -/

section BodyLemmas
variable {F : Type} [LinearOrderedField F]

/-- The trail update when the trail flag is off. -/
theorem updateTrail_off (now : F) (b : Body F) (h : b.trail = false) :
    b.updateTrail now = b := by
  simp [Body.updateTrail, h]

/-- The trail update when the elapsed time is below the drop rate. -/
theorem updateTrail_skip (now : F) (b : Body F)
    (h : now - b.trailClock.startTime < 0.05) : b.updateTrail now = b := by
  unfold Body.updateTrail
  split
  · rfl
  · rw [if_neg]
    simpa [Clock.getElapsedTime, TRAIL_DROP_RATE] using h

/-- The trail update when it records a sample. -/
theorem updateTrail_record (now : F) (b : Body F) (ht : b.trail = true)
    (h : now - b.trailClock.startTime ≥ 0.05) :
    let point : CircleShape F :=
      { position := b.position, radius := 1, origin := ⟨0, 0⟩,
        fillColor := { b.fillColor with a := 150 } }
    b.updateTrail now =
      { b with
        trailPoints :=
          if (b.trailPoints ++ [point]).length > 200 then (b.trailPoints ++ [point]).eraseIdx 0
          else b.trailPoints ++ [point],
        trailClock := ⟨now⟩ } := by
  intro point
  have h' : b.trailClock.getElapsedTime now ≥ TRAIL_DROP_RATE F := by
    simpa [Clock.getElapsedTime, TRAIL_DROP_RATE] using h
  simp only [Body.updateTrail, ht, Bool.not_true, Bool.false_eq_true, if_false, if_pos h',
    CircleShape.new, maxTrailLength, Clock.restart, point]

/-- The trail update touches only the trail history and the trail clock. -/
theorem updateTrail_frame (now : F) (b : Body F) :
    (b.updateTrail now).toCircleShape = b.toCircleShape ∧
    (b.updateTrail now).mass = b.mass ∧
    (b.updateTrail now).velocity = b.velocity ∧
    (b.updateTrail now).acceleration = b.acceleration ∧
    (b.updateTrail now).trail = b.trail := by
  unfold Body.updateTrail
  split
  · simp
  · split <;> simp

/-- The trail update keeps a trail history of at most 200 points within 200 points. -/
theorem updateTrail_length_le (now : F) (b : Body F) (h : b.trailPoints.length ≤ 200) :
    (b.updateTrail now).trailPoints.length ≤ 200 := by
  unfold Body.updateTrail
  split
  · exact h
  · split
    · dsimp only
      split
      · simp only [List.eraseIdx_zero, List.length_tail, List.length_append, List.length_singleton]
        omega
      · rename_i hlen
        simp only [maxTrailLength] at hlen
        omega
    · exact h

theorem updatePos_length_le (dt now : F) (b : Body F) (h : b.trailPoints.length ≤ 200) :
    (b.updatePos dt now).trailPoints.length ≤ 200 := by
  unfold Body.updatePos
  exact updateTrail_length_le now _ h

theorem updatePosSeq_length_le (steps : List (F × F)) (b : Body F)
    (h : b.trailPoints.length ≤ 200) : (b.updatePosSeq steps).trailPoints.length ≤ 200 := by
  unfold Body.updatePosSeq
  induction steps generalizing b with
  | nil => exact h
  | cons s steps ih => exact ih _ (updatePos_length_le s.1 s.2 b h)

/-- C5: trail capacity invariant.  A trail history of at most 200 points still has at most
200 points after `updateTrail` and after `updatePos`, for every time step and every clock
instant; hence a body whose trail history starts empty holds at most 200 points after any
sequence of `updatePos` calls. -/
theorem trail_capacity :
    (∀ (now : F) (b : Body F),
      b.trailPoints.length ≤ 200 → (b.updateTrail now).trailPoints.length ≤ 200) ∧
    (∀ (dt now : F) (b : Body F),
      b.trailPoints.length ≤ 200 → (b.updatePos dt now).trailPoints.length ≤ 200) ∧
    (∀ (steps : List (F × F)) (b : Body F),
      b.trailPoints = [] → (b.updatePosSeq steps).trailPoints.length ≤ 200) := by
  refine ⟨updateTrail_length_le, updatePos_length_le, ?_⟩
  intro steps b hb
  apply updatePosSeq_length_le
  simp [hb]

theorem trail_capacity_witness :
    (sampleFull.updateTrail 1).trailPoints.length ≤ 200 ∧
    (sampleFull.updatePos 1 1).trailPoints.length ≤ 200 ∧
    (sampleB.updatePosSeq [(1, 1), (1, 2), (1, 3)]).trailPoints.length ≤ 200 :=
  ⟨(@trail_capacity ℚ _).1 1 sampleFull (List.length_replicate _ _).le,
   (@trail_capacity ℚ _).2.1 1 1 sampleFull (List.length_replicate _ _).le,
   (@trail_capacity ℚ _).2.2 [(1, 1), (1, 2), (1, 3)] sampleB rfl⟩

/-- The trail history after a recording call, as the last 200 points of the extended
history. -/
theorem updateTrail_record_drop (now : F) (b : Body F) (ht : b.trail = true)
    (h : now - b.trailClock.startTime ≥ 0.05) (hlen : b.trailPoints.length ≤ 200) :
    let point : CircleShape F :=
      { position := b.position, radius := 1, origin := ⟨0, 0⟩,
        fillColor := { b.fillColor with a := 150 } }
    (b.updateTrail now).trailPoints =
      (b.trailPoints ++ [point]).drop (b.trailPoints.length + 1 - 200) := by
  intro point
  rw [updateTrail_record now b ht h]
  dsimp only
  split
  · rename_i hgt
    simp only [List.length_append, List.length_singleton] at hgt
    have hd : b.trailPoints.length + 1 - 200 = 1 := by omega
    rw [hd, List.eraseIdx_zero, List.drop_one]
  · rename_i hgt
    simp only [List.length_append, List.length_singleton] at hgt
    have hd : b.trailPoints.length + 1 - 200 = 0 := by omega
    rw [hd, List.drop_zero]

/-- General form of the FIFO law: from any trail history within capacity, a run of
recording calls leaves the last 200 points of the old history followed by the new samples. -/
theorem updateTrailSeq_trailPoints (samples : List (Vector2f F × F)) (b : Body F)
    (ht : b.trail = true) (hlen : b.trailPoints.length ≤ 200)
    (hrec : List.Chain (fun t t' : F => t' - t ≥ 0.05) b.trailClock.startTime
      (samples.map Prod.snd)) :
    (b.updateTrailSeq samples).trailPoints =
      (b.trailPoints ++ samples.map fun s =>
          ({ position := s.1, radius := 1, origin := ⟨0, 0⟩,
             fillColor := { b.fillColor with a := 150 } } : CircleShape F)).drop
        (b.trailPoints.length + samples.length - 200) := by
  induction samples generalizing b with
  | nil =>
    have hd : b.trailPoints.length - 200 = 0 := by omega
    simp [Body.updateTrailSeq, hd]
  | cons s rest ih =>
    simp only [List.map_cons, List.chain_cons] at hrec
    obtain ⟨hs, hrest⟩ := hrec
    have hfr := updateTrail_frame s.2 ({ b with position := s.1 } : Body F)
    obtain ⟨hshape, -, -, -, htrail⟩ := hfr
    have hT := updateTrail_record_drop s.2 ({ b with position := s.1 } : Body F) ht hs hlen
    have hclock : (({ b with position := s.1 } : Body F).updateTrail s.2).trailClock.startTime
        = s.2 := by
      rw [updateTrail_record s.2 ({ b with position := s.1 } : Body F) ht hs]
    have hcolor : (({ b with position := s.1 } : Body F).updateTrail s.2).fillColor
        = b.fillColor := by
      have := congrArg CircleShape.fillColor hshape
      simpa using this
    have hlen' : (({ b with position := s.1 } : Body F).updateTrail s.2).trailPoints.length
        ≤ 200 := updateTrail_length_le s.2 _ hlen
    have key := ih (({ b with position := s.1 } : Body F).updateTrail s.2)
      (htrail.trans ht) hlen' (by rw [hclock]; exact hrest)
    have hstep : b.updateTrailSeq (s :: rest)
        = (({ b with position := s.1 } : Body F).updateTrail s.2).updateTrailSeq rest := rfl
    rw [hstep, key, hcolor, hT]
    dsimp only
    rw [← List.drop_append_of_le_length (by simp; omega), List.drop_drop, List.append_assoc]
    simp only [List.length_drop, List.length_append, List.length_singleton, List.length_cons,
      List.singleton_append]
    have hidx : b.trailPoints.length + 1 - 200 +
        (b.trailPoints.length + (([] : List (CircleShape F)).length + 1)
          - (b.trailPoints.length + 1 - 200) + rest.length - 200)
        = b.trailPoints.length + (rest.length + 1) - 200 := by
      simp only [List.length_nil]
      omega
    rw [hidx, List.map_cons]

/-- C6: trail FIFO eviction.  For a trail-enabled body starting with an empty trail, after
`k` calls of `updateTrail` that each record a sample (elapsed time at least 0.05 at each
call), the trail history is exactly the last `min k 200` sampled positions, in the order in
which they were recorded, each as a point of radius 1 in the body's colour with alpha 150. -/
theorem trail_fifo (samples : List (Vector2f F × F)) (b : Body F)
    (ht : b.trail = true) (hempty : b.trailPoints = [])
    (hrec : List.Chain (fun t t' : F => t' - t ≥ 0.05) b.trailClock.startTime
      (samples.map Prod.snd)) :
    (b.updateTrailSeq samples).trailPoints =
      (samples.map fun s =>
          ({ position := s.1, radius := 1, origin := ⟨0, 0⟩,
             fillColor := { b.fillColor with a := 150 } } : CircleShape F)).drop
        (samples.length - min samples.length 200) ∧
    (b.updateTrailSeq samples).trailPoints.length = min samples.length 200 := by
  have key := updateTrailSeq_trailPoints samples b ht (by simp [hempty]) hrec
  have hd : samples.length - min samples.length 200 = samples.length - 200 := by omega
  rw [hempty] at key
  simp only [List.nil_append, List.length_nil, Nat.zero_add] at key
  rw [hd, key]
  refine ⟨rfl, ?_⟩
  simp only [List.length_drop, List.length_map]
  omega

/-- Consecutive integer instants are at least 0.05 apart. -/
theorem chain_range' (a n : Nat) :
    List.Chain (fun t t' : ℚ => t' - t ≥ 0.05) (a : ℚ)
      ((List.range' (a + 1) n).map fun (k : Nat) => (k : ℚ)) := by
  induction n generalizing a with
  | zero => simp
  | succ n ih =>
    rw [List.range'_succ, List.map_cons, List.chain_cons]
    refine ⟨by norm_num, ?_⟩
    exact_mod_cast ih (a + 1)

theorem trail_fifo_witness :
    (sampleB.updateTrailSeq sampleTrack).trailPoints =
      (sampleTrack.map fun s =>
          ({ position := s.1, radius := 1, origin := ⟨0, 0⟩,
             fillColor := { sampleB.fillColor with a := 150 } } : CircleShape ℚ)).drop
        (sampleTrack.length - min sampleTrack.length 200) ∧
    (sampleB.updateTrailSeq sampleTrack).trailPoints.length = min sampleTrack.length 200 :=
  trail_fifo sampleTrack sampleB rfl rfl (by
    have h := chain_range' 0 201
    simpa [sampleTrack, sampleB, Body.new, Function.comp_def] using h)

/-- A body with the trail flag off and an empty trail history keeps both through `updatePos`. -/
theorem updatePos_trail_off (dt now : F) (b : Body F) (ht : b.trail = false)
    (hempty : b.trailPoints = []) :
    (b.updatePos dt now).trail = false ∧ (b.updatePos dt now).trailPoints = [] := by
  simp [Body.updatePos, Body.updateTrail, ht, hempty]

theorem updatePosSeq_trail_off (steps : List (F × F)) (b : Body F) (ht : b.trail = false)
    (hempty : b.trailPoints = []) : (b.updatePosSeq steps).trailPoints = [] := by
  unfold Body.updatePosSeq
  induction steps generalizing b with
  | nil => exact hempty
  | cons s steps ih =>
    obtain ⟨h1, h2⟩ := updatePos_trail_off s.1 s.2 b ht hempty
    exact ih _ h1 h2

theorem advanceSeq_trail_off (steps : List (Vector2f F × F × F)) (b : Body F)
    (ht : b.trail = false) (hempty : b.trailPoints = []) :
    (b.advanceSeq steps).trailPoints = [] ∧ (b.advanceSeq steps).trail = false := by
  unfold Body.advanceSeq
  induction steps generalizing b with
  | nil => exact ⟨hempty, ht⟩
  | cons s steps ih =>
    obtain ⟨h1, h2⟩ := updatePos_trail_off s.2.1 s.2.2
      ({ b with acceleration := s.1 } : Body F) ht hempty
    exact ih _ h1 h2

/-- C7: trail disabled.  A body whose trail flag is off and whose trail history is empty, as
every body constructed with the flag off is, whatever its position, velocity and
acceleration, has an empty trail history after any sequence of `updatePos` calls, for every
sequence of time steps and of clock instants; the same holds when the solver writes a new
acceleration before each call, and the flag stays off. -/
theorem trail_disabled (b : Body F) (ht : b.trail = false) (hempty : b.trailPoints = []) :
    (∀ steps : List (F × F), (b.updatePosSeq steps).trailPoints = []) ∧
    (∀ steps : List (Vector2f F × F × F),
      (b.advanceSeq steps).trailPoints = [] ∧ (b.advanceSeq steps).trail = false) ∧
    (∀ (x y r m : F) (color : Color) (start : F) (v : Vector2f F) (steps : List (F × F)),
      (({ Body.new x y r m color false start with velocity := v } : Body F).updatePosSeq
        steps).trailPoints = []) :=
  ⟨fun steps => updatePosSeq_trail_off steps b ht hempty,
   fun steps => advanceSeq_trail_off steps b ht hempty,
   fun _ _ _ _ _ _ _ steps => updatePosSeq_trail_off steps _ rfl rfl⟩

theorem trail_disabled_witness :
    (sampleA.updatePosSeq sampleSteps).trailPoints = [] ∧
    (sampleA.updatePosSeq sampleSteps).position ≠ sampleA.position ∧
    (sampleA.advanceSeq [(⟨1, 2⟩, 1, 1), (⟨-3, 5⟩, 2, 2)]).trailPoints = [] := by
  obtain ⟨h1, h2, -⟩ := trail_disabled sampleA rfl rfl
  refine ⟨h1 sampleSteps, ?_, (h2 _).1⟩
  intro hpos
  have hx := congrArg Vector2f.x hpos
  simp [Body.updatePosSeq, sampleSteps, Body.updatePos, Body.updateTrail, sampleA, Body.new,
    PIXEL_KM] at hx
  norm_num at hx

/-- One `updatePos` step: the new velocity and position, and the fields left unchanged. -/
theorem updatePos_fields (dt now : F) (b : Body F) :
    (b.updatePos dt now).velocity = b.velocity + b.acceleration * dt ∧
    (b.updatePos dt now).position
      = b.position + ((b.velocity + b.acceleration * dt) / (20000 : F)) * dt ∧
    (b.updatePos dt now).acceleration = b.acceleration ∧
    (b.updatePos dt now).mass = b.mass ∧
    (b.updatePos dt now).trail = b.trail := by
  unfold Body.updatePos
  dsimp only
  obtain ⟨hshape, hm, hv, ha, ht⟩ := updateTrail_frame now
    ({ b with velocity := b.velocity + b.acceleration * dt,
              position := b.position + ((b.velocity + b.acceleration * dt) / PIXEL_KM F) * dt } :
      Body F)
  have hp := congrArg CircleShape.position hshape
  exact ⟨hv, hp, ha, hm, ht⟩

/-- C9: semi-implicit Euler step.  For every body state and every `dt`, `updatePos(dt)` sets
the velocity to `v' = v + a * dt` and the position to `p + (v' / 20000) * dt`, the position
step using the updated velocity `v'`; acceleration, mass and trail flag are unchanged. -/
theorem updatePos_semi_implicit (dt now : F) (b : Body F) :
    (b.updatePos dt now).velocity = b.velocity + b.acceleration * dt ∧
    (b.updatePos dt now).position
      = b.position + ((b.updatePos dt now).velocity / (20000 : F)) * dt ∧
    (b.updatePos dt now).position
      = b.position + ((b.velocity + b.acceleration * dt) / (20000 : F)) * dt ∧
    (b.updatePos dt now).acceleration = b.acceleration ∧
    (b.updatePos dt now).mass = b.mass ∧
    (b.updatePos dt now).trail = b.trail := by
  obtain ⟨hv, hp, ha, hm, ht⟩ := updatePos_fields dt now b
  refine ⟨hv, ?_, hp, ha, hm, ht⟩
  rw [hv, hp]

/-- Velocity and position after a sequence of `updatePos` calls with zero acceleration. -/
theorem updatePosSeq_zero_acceleration (steps : List (F × F)) (b : Body F)
    (ha : b.acceleration = ⟨0, 0⟩) :
    (b.updatePosSeq steps).velocity = b.velocity ∧
    (b.updatePosSeq steps).position
      = b.position + (b.velocity / (20000 : F)) * (steps.map Prod.fst).sum := by
  unfold Body.updatePosSeq
  induction steps generalizing b with
  | nil =>
    refine ⟨rfl, ?_⟩
    ext <;> simp
  | cons s steps ih =>
    obtain ⟨hv, hp, ha', -, -⟩ := updatePos_fields s.1 s.2 b
    have hv' : (b.updatePos s.1 s.2).velocity = b.velocity := by
      rw [hv, ha]; ext <;> simp
    obtain ⟨ihv, ihp⟩ := ih (b.updatePos s.1 s.2) (ha'.trans ha)
    rw [List.foldl_cons]
    refine ⟨ihv.trans hv', ?_⟩
    rw [ihp, hv', hp, ha]
    ext <;> simp <;> ring

/-- C8 (as amended): integration linearity in exact arithmetic.  With every operation of
`updatePos` taken as the exact operation, for a body with zero acceleration and velocity `v`, any
sequence of calls `updatePos(dt_1), ..., updatePos(dt_n)` with `T = dt_1 + ... + dt_n` leaves
the velocity equal to `v` and the position equal to the start position plus
`(v / 20000) * T`; this is also the position after the single call `updatePos(T)`. -/
theorem updatePos_linearity (steps : List (F × F)) (b : Body F) (ha : b.acceleration = ⟨0, 0⟩) :
    (b.updatePosSeq steps).velocity = b.velocity ∧
    (b.updatePosSeq steps).position
      = b.position + (b.velocity / (20000 : F)) * (steps.map Prod.fst).sum ∧
    ∀ now : F, (b.updatePosSeq steps).position
      = (b.updatePos (steps.map Prod.fst).sum now).position := by
  obtain ⟨hv, hp⟩ := updatePosSeq_zero_acceleration steps b ha
  refine ⟨hv, hp, ?_⟩
  intro now
  rw [hp, (updatePos_fields _ now b).2.1, ha]
  ext <;> simp

theorem updatePos_linearity_witness :
    sampleMover.acceleration = ⟨0, 0⟩ ∧
    (sampleMover.updatePosSeq sampleSteps).velocity = ⟨10000, -20000⟩ ∧
    (sampleMover.updatePosSeq sampleSteps).position = ⟨7 / 4, -7 / 2⟩ := by
  obtain ⟨hv, hp, -⟩ := updatePos_linearity sampleSteps sampleMover rfl
  refine ⟨rfl, hv, ?_⟩
  rw [hp]
  ext <;> norm_num [sampleMover, sampleSteps, Body.new]

end BodyLemmas

/-! ## Gravity solver: two bodies -/

section Solver
variable {F : Type} [LinearOrderedField F]

@[simp]
theorem length_addAcceleration (bodies : List (Body F)) (k : Nat) (a : Vector2f F) :
    (addAcceleration bodies k a).length = bodies.length := by
  unfold addAcceleration
  split <;> simp

@[simp]
theorem length_pairStep (sqrt : F → F) (bodies : List (Body F)) (i j : Nat) :
    (pairStep sqrt bodies i j).length = bodies.length := by
  unfold pairStep
  split
  · dsimp only
    split <;> simp
  · rfl

theorem length_foldl_pairStep (sqrt : F → F) (i : Nat) (js : List Nat) (bodies : List (Body F)) :
    (js.foldl (fun bs j => pairStep sqrt bs i j) bodies).length = bodies.length := by
  induction js generalizing bodies with
  | nil => rfl
  | cons j js ih => simp [ih]

@[simp]
theorem length_innerLoop (sqrt : F → F) (bodies : List (Body F)) (i : Nat) :
    (innerLoop sqrt bodies i).length = bodies.length := by
  unfold innerLoop
  exact length_foldl_pairStep sqrt i _ bodies

@[simp]
theorem length_resetAccelerations (bodies : List (Body F)) :
    (resetAccelerations bodies).length = bodies.length := by
  simp [resetAccelerations]

/-- The solver on a two-element vector runs the pair step once, for the pair `(0, 1)`. -/
theorem calculateGravityEffects_pair (sqrt : F → F) (b0 b1 : Body F) :
    calculateGravityEffects sqrt [b0, b1] = pairStep sqrt (resetAccelerations [b0, b1]) 0 1 := by
  simp [calculateGravityEffects, innerLoop, List.range_succ, List.range']

theorem getElem?_addAcceleration_self (bodies : List (Body F)) (k : Nat) (a : Vector2f F)
    (b : Body F) (h : bodies[k]? = some b) :
    (addAcceleration bodies k a)[k]? = some { b with acceleration := b.acceleration + a } := by
  have hk : k < bodies.length := (List.getElem?_eq_some.mp h).1
  simp [addAcceleration, h, hk]

theorem getElem?_addAcceleration_ne (bodies : List (Body F)) (k l : Nat) (a : Vector2f F)
    (h : k ≠ l) : (addAcceleration bodies k a)[l]? = bodies[l]? := by
  unfold addAcceleration
  split
  · simp [h]
  · rfl

/-- The pair step leaves the vector alone when the pair is closer than one pixel. -/
theorem pairStep_near (sqrt : F → F) (bodies : List (Body F)) (i j : Nat) (body1 body2 : Body F)
    (h1 : bodies[i]? = some body1) (h2 : bodies[j]? = some body2)
    (h : (body2.position - body1.position).x * (body2.position - body1.position).x
          + (body2.position - body1.position).y * (body2.position - body1.position).y < 1) :
    pairStep sqrt bodies i j = bodies := by
  simp only [pairStep, h1, h2]
  rw [if_pos h]

/-- The pair step as two `+=` statements when the pair is at least one pixel apart. -/
theorem pairStep_far (sqrt : F → F) (bodies : List (Body F)) (i j : Nat) (body1 body2 : Body F)
    (h1 : bodies[i]? = some body1) (h2 : bodies[j]? = some body2)
    (h : 1 ≤ (body2.position - body1.position).x * (body2.position - body1.position).x
          + (body2.position - body1.position).y * (body2.position - body1.position).y) :
    let direction := body2.position - body1.position
    let r := sqrt (direction.x * direction.x + direction.y * direction.y)
    pairStep sqrt bodies i j =
      addAcceleration
        (addAcceleration bodies i ((G F * body2.mass / (20000 * r) ^ 2) * (direction / r)))
        j ((G F * body1.mass / (20000 * r) ^ 2) * (-(direction / r))) := by
  intro direction r
  have h' : ¬ (direction.x * direction.x + direction.y * direction.y < 1) := not_lt.mpr h
  have hk : r * PIXEL_KM F * (r * PIXEL_KM F) = (20000 * r) ^ 2 := by
    simp only [PIXEL_KM]; ring
  simp only [pairStep, h1, h2]
  rw [if_neg h', hk]

/-- The two bodies of a pair after the pair step, when they are at least one pixel apart. -/
theorem pairStep_far_getElem (sqrt : F → F) (bodies : List (Body F)) (i j : Nat)
    (body1 body2 : Body F) (hij : i ≠ j)
    (h1 : bodies[i]? = some body1) (h2 : bodies[j]? = some body2)
    (h : 1 ≤ (body2.position - body1.position).x * (body2.position - body1.position).x
          + (body2.position - body1.position).y * (body2.position - body1.position).y) :
    let direction := body2.position - body1.position
    let r := sqrt (direction.x * direction.x + direction.y * direction.y)
    (pairStep sqrt bodies i j)[i]? = some { body1 with acceleration :=
        body1.acceleration + (G F * body2.mass / (20000 * r) ^ 2) * (direction / r) } ∧
    (pairStep sqrt bodies i j)[j]? = some { body2 with acceleration :=
        body2.acceleration + (G F * body1.mass / (20000 * r) ^ 2) * (-(direction / r)) } := by
  intro direction r
  rw [pairStep_far sqrt bodies i j body1 body2 h1 h2 h]
  constructor
  · rw [getElem?_addAcceleration_ne _ _ _ _ (Ne.symm hij)]
    exact getElem?_addAcceleration_self _ _ _ _ h1
  · apply getElem?_addAcceleration_self
    rw [getElem?_addAcceleration_ne _ _ _ _ hij]
    exact h2

/-- C1: for two bodies whose squared pixel separation is at least 1 (the boundary 1
included), whatever their masses and prior accelerations, `calculateGravityEffects`
leaves body 0 with acceleration `(G * mass 1 / (20000 * r)^2) * (direction / r)` and
body 1 with `(G * mass 0 / (20000 * r)^2) * (-(direction / r))`, where `direction` is
`position 1 - position 0` and `r` the square root of its squared length; nothing else
in the two bodies changes. -/
theorem calculateGravityEffects_two_bodies (sqrt : F → F) (b0 b1 : Body F)
    (h : 1 ≤ (b1.position - b0.position).x * (b1.position - b0.position).x
            + (b1.position - b0.position).y * (b1.position - b0.position).y) :
    let direction := b1.position - b0.position
    let r := sqrt (direction.x * direction.x + direction.y * direction.y)
    calculateGravityEffects sqrt [b0, b1] =
      [{ b0 with acceleration := (G F * b1.mass / (20000 * r) ^ 2) * (direction / r) },
       { b1 with acceleration := (G F * b0.mass / (20000 * r) ^ 2) * (-(direction / r)) }] := by
  intro direction r
  have h' : ¬ (direction.x * direction.x + direction.y * direction.y < 1) := not_lt.mpr h
  rw [calculateGravityEffects_pair]
  simp only [pairStep, resetAccelerations, List.map, List.getElem?_cons_zero,
    List.getElem?_cons_succ]
  rw [if_neg h']
  simp only [addAcceleration, List.getElem?_cons_zero, List.set_cons_zero,
    List.getElem?_cons_succ, List.set_cons_succ]
  have e0 : ∀ v : Vector2f F, (⟨0, 0⟩ : Vector2f F) + v = v := fun v => by
    ext <;> simp
  have hk : r * PIXEL_KM F * (r * PIXEL_KM F) = (20000 * r) ^ 2 := by
    simp only [PIXEL_KM]; ring
  simp only [e0]
  rw [hk]

/-- The square root of the squared separation of the two sample bodies. -/
theorem sqrt_sample : Rat.sqrt ((3 - 0) * (3 - 0) + (4 - 0) * (4 - 0)) = 5 := by
  have h := Rat.sqrt_eq 5
  norm_num at h ⊢

theorem calculateGravityEffects_two_bodies_witness :
    (1 : ℚ) ≤ (sampleB.position - sampleA.position).x * (sampleB.position - sampleA.position).x
        + (sampleB.position - sampleA.position).y * (sampleB.position - sampleA.position).y ∧
    calculateGravityEffects Rat.sqrt [sampleA, sampleB] =
      [{ sampleA with acceleration := ⟨1.20132e-20, 1.60176e-20⟩ },
       { sampleB with acceleration := ⟨-8.0088e-21, -1.06784e-20⟩ }] := by
  have h : (1 : ℚ) ≤ (sampleB.position - sampleA.position).x
        * (sampleB.position - sampleA.position).x
        + (sampleB.position - sampleA.position).y * (sampleB.position - sampleA.position).y := by
    norm_num [sampleA, sampleB, Body.new]
  refine ⟨h, ?_⟩
  have key := calculateGravityEffects_two_bodies Rat.sqrt sampleA sampleB h
  have hs : Rat.sqrt ((sampleB.position - sampleA.position).x
        * (sampleB.position - sampleA.position).x
        + (sampleB.position - sampleA.position).y * (sampleB.position - sampleA.position).y)
      = 5 := by
    simpa [sampleA, sampleB, Body.new] using sqrt_sample
  simp only [hs] at key
  rw [key]
  simp only [sampleA, sampleB, Body.new, G]
  congr 3 <;> ext <;> norm_num

/-- C2 (as amended): for a pair `i < j` of bodies at least one pixel apart, the pair step
adds `(G * mass j / (20000 * r)^2) * u` to body `i` and `(G * mass i / (20000 * r)^2) * (-u)`
to body `j`, with the same vector `u = direction / r`; the two contributions weighted by the
receiving body's mass are exactly opposite, and the contributions themselves are exactly
opposite when the two masses are equal. -/
theorem pairStep_contributions (sqrt : F → F) (bodies : List (Body F)) (i j : Nat)
    (body1 body2 : Body F) (hij : i < j)
    (h1 : bodies[i]? = some body1) (h2 : bodies[j]? = some body2)
    (h : 1 ≤ (body2.position - body1.position).x * (body2.position - body1.position).x
          + (body2.position - body1.position).y * (body2.position - body1.position).y) :
    let direction := body2.position - body1.position
    let r := sqrt (direction.x * direction.x + direction.y * direction.y)
    let u := direction / r
    ∃ body1' body2' : Body F,
      (pairStep sqrt bodies i j)[i]? = some body1' ∧
      (pairStep sqrt bodies i j)[j]? = some body2' ∧
      body1'.acceleration - body1.acceleration = (G F * body2.mass / (20000 * r) ^ 2) * u ∧
      body2'.acceleration - body2.acceleration = (G F * body1.mass / (20000 * r) ^ 2) * (-u) ∧
      body1.mass * (body1'.acceleration - body1.acceleration)
        = -(body2.mass * (body2'.acceleration - body2.acceleration)) ∧
      (body1.mass = body2.mass →
        body2'.acceleration - body2.acceleration
          = -(body1'.acceleration - body1.acceleration)) := by
  intro direction r u
  obtain ⟨e1, e2⟩ := pairStep_far_getElem sqrt bodies i j body1 body2 (Nat.ne_of_lt hij) h1 h2 h
  refine ⟨_, _, e1, e2, ?_, ?_, ?_, ?_⟩
  · ext <;> simp [u, r, direction]
  · ext <;> simp [u, r, direction]
  · ext <;> simp <;> ring
  · intro hm
    ext <;> simp [hm]

theorem pairStep_contributions_witness :
    ∃ body1' body2' : Body ℚ,
      (pairStep Rat.sqrt [sampleA, sampleB] 0 1)[0]? = some body1' ∧
      (pairStep Rat.sqrt [sampleA, sampleB] 0 1)[1]? = some body2' ∧
      sampleA.mass * (body1'.acceleration - sampleA.acceleration)
        = -(sampleB.mass * (body2'.acceleration - sampleB.acceleration)) := by
  obtain ⟨b1, b2, e1, e2, -, -, e3, -⟩ :=
    pairStep_contributions Rat.sqrt [sampleA, sampleB] 0 1 sampleA sampleB (by decide) rfl rfl
      (by norm_num [sampleA, sampleB, Body.new])
  exact ⟨b1, b2, e1, e2, e3⟩

/-- C2 as stated fails: for the sample pair (masses 2 and 3, five pixels apart) the two
contributions of the pair step differ in magnitude, so they are not opposite vectors. -/
theorem pairStep_contributions_unequal :
    ∃ body1' body2' : Body ℚ,
      (pairStep Rat.sqrt [sampleA, sampleB] 0 1)[0]? = some body1' ∧
      (pairStep Rat.sqrt [sampleA, sampleB] 0 1)[1]? = some body2' ∧
      (body1'.acceleration - sampleA.acceleration).x
            * (body1'.acceleration - sampleA.acceleration).x
          + (body1'.acceleration - sampleA.acceleration).y
            * (body1'.acceleration - sampleA.acceleration).y
        ≠ (body2'.acceleration - sampleB.acceleration).x
            * (body2'.acceleration - sampleB.acceleration).x
          + (body2'.acceleration - sampleB.acceleration).y
            * (body2'.acceleration - sampleB.acceleration).y ∧
      body2'.acceleration - sampleB.acceleration
        ≠ -(body1'.acceleration - sampleA.acceleration) := by
  have h : (1 : ℚ) ≤ (sampleB.position - sampleA.position).x
        * (sampleB.position - sampleA.position).x
        + (sampleB.position - sampleA.position).y * (sampleB.position - sampleA.position).y := by
    norm_num [sampleA, sampleB, Body.new]
  obtain ⟨e1, e2⟩ :=
    pairStep_far_getElem Rat.sqrt [sampleA, sampleB] 0 1 sampleA sampleB (by decide) rfl rfl h
  have hs : Rat.sqrt ((sampleB.position - sampleA.position).x
        * (sampleB.position - sampleA.position).x
        + (sampleB.position - sampleA.position).y * (sampleB.position - sampleA.position).y)
      = 5 := by
    simpa [sampleA, sampleB, Body.new] using sqrt_sample
  simp only [hs] at e1 e2
  refine ⟨_, _, e1, e2, ?_, ?_⟩
  · norm_num [sampleA, sampleB, Body.new, G]
  · intro hc
    have hx := congrArg Vector2f.x hc
    norm_num [sampleA, sampleB, Body.new, G] at hx

/-- C3: singularity guard.  For two bodies whose squared pixel separation is below 1
(coincident bodies included), whatever their masses, `calculateGravityEffects` leaves both
accelerations equal to the zero vector; and in any collection the pair step of a pair with
squared separation below 1 leaves the whole collection unchanged, so it adds nothing to
either body. -/
theorem singularity_guard (sqrt : F → F) :
    (∀ b0 b1 : Body F,
      (b1.position - b0.position).x * (b1.position - b0.position).x
          + (b1.position - b0.position).y * (b1.position - b0.position).y < 1 →
      calculateGravityEffects sqrt [b0, b1] =
        [{ b0 with acceleration := ⟨0, 0⟩ }, { b1 with acceleration := ⟨0, 0⟩ }]) ∧
    (∀ (bodies : List (Body F)) (i j : Nat) (body1 body2 : Body F),
      bodies[i]? = some body1 → bodies[j]? = some body2 →
      (body2.position - body1.position).x * (body2.position - body1.position).x
          + (body2.position - body1.position).y * (body2.position - body1.position).y < 1 →
      pairStep sqrt bodies i j = bodies) := by
  constructor
  · intro b0 b1 h
    rw [calculateGravityEffects_pair]
    exact pairStep_near sqrt _ 0 1 { b0 with acceleration := ⟨0, 0⟩ }
      { b1 with acceleration := ⟨0, 0⟩ } rfl rfl h
  · intro bodies i j body1 body2 h1 h2 h
    exact pairStep_near sqrt bodies i j body1 body2 h1 h2 h

theorem singularity_guard_witness :
    calculateGravityEffects Rat.sqrt [sampleA, sampleNear] =
      [{ sampleA with acceleration := ⟨0, 0⟩ }, { sampleNear with acceleration := ⟨0, 0⟩ }] ∧
    calculateGravityEffects Rat.sqrt [sampleA, sampleA] =
      [{ sampleA with acceleration := ⟨0, 0⟩ }, { sampleA with acceleration := ⟨0, 0⟩ }] ∧
    pairStep Rat.sqrt [sampleB, sampleA, sampleNear] 1 2 = [sampleB, sampleA, sampleNear] :=
  ⟨(singularity_guard Rat.sqrt).1 sampleA sampleNear (by norm_num [sampleA, sampleNear, Body.new]),
   (singularity_guard Rat.sqrt).1 sampleA sampleA (by norm_num [sampleA, Body.new]),
   (singularity_guard Rat.sqrt).2 [sampleB, sampleA, sampleNear] 1 2 sampleA sampleNear rfl rfl
     (by norm_num [sampleA, sampleNear, Body.new])⟩

end Solver

/-! ## Gravity solver: acceleration reset -/

section Reset
variable {F : Type} [LinearOrderedField F]

theorem resetAccelerations_addAcceleration (bodies : List (Body F)) (k : Nat) (a : Vector2f F) :
    resetAccelerations (addAcceleration bodies k a) = resetAccelerations bodies := by
  unfold addAcceleration
  split
  · rename_i b hb
    induction bodies generalizing k with
    | nil => rfl
    | cons c cs ih =>
      cases k with
      | zero =>
        simp only [List.getElem?_cons_zero, Option.some.injEq] at hb
        subst hb
        rfl
      | succ k =>
        simp only [List.getElem?_cons_succ] at hb
        have := ih k hb
        simp only [resetAccelerations, List.set_cons_succ, List.map_cons] at this ⊢
        rw [this]
  · rfl

theorem resetAccelerations_pairStep (sqrt : F → F) (bodies : List (Body F)) (i j : Nat) :
    resetAccelerations (pairStep sqrt bodies i j) = resetAccelerations bodies := by
  unfold pairStep
  split
  · dsimp only
    split
    · rfl
    · rw [resetAccelerations_addAcceleration, resetAccelerations_addAcceleration]
  · rfl

theorem resetAccelerations_innerLoop (sqrt : F → F) (bodies : List (Body F)) (i : Nat) :
    resetAccelerations (innerLoop sqrt bodies i) = resetAccelerations bodies := by
  unfold innerLoop
  generalize List.range' (i + 1) (bodies.length - (i + 1)) = js
  induction js generalizing bodies with
  | nil => rfl
  | cons j js ih => rw [List.foldl_cons, ih, resetAccelerations_pairStep]

theorem resetAccelerations_foldl_innerLoop (sqrt : F → F) (is : List Nat)
    (bodies : List (Body F)) :
    resetAccelerations (is.foldl (fun bs i => innerLoop sqrt bs i) bodies)
      = resetAccelerations bodies := by
  induction is generalizing bodies with
  | nil => rfl
  | cons i is ih => rw [List.foldl_cons, ih, resetAccelerations_innerLoop]

theorem resetAccelerations_idem (bodies : List (Body F)) :
    resetAccelerations (resetAccelerations bodies) = resetAccelerations bodies := by
  simp [resetAccelerations]

/-- The solver changes nothing but accelerations: after the reset its output and its input
are the same vector. -/
theorem resetAccelerations_calculateGravityEffects (sqrt : F → F) (bodies : List (Body F)) :
    resetAccelerations (calculateGravityEffects sqrt bodies) = resetAccelerations bodies := by
  unfold calculateGravityEffects
  dsimp only
  rw [resetAccelerations_foldl_innerLoop, resetAccelerations_idem]

/-- The solver only sees its input through the reset vector. -/
theorem calculateGravityEffects_congr (sqrt : F → F) (bodies bodies' : List (Body F))
    (h : resetAccelerations bodies = resetAccelerations bodies') :
    calculateGravityEffects sqrt bodies = calculateGravityEffects sqrt bodies' := by
  unfold calculateGravityEffects
  dsimp only
  rw [h]

/-- Vectors that agree body by body up to the acceleration field have the same reset. -/
theorem resetAccelerations_eq_of_forall₂ (bodies bodies' : List (Body F))
    (h : List.Forall₂ (fun b b' : Body F => ∃ a : Vector2f F, b' = { b with acceleration := a })
      bodies bodies') :
    resetAccelerations bodies = resetAccelerations bodies' := by
  induction h with
  | nil => rfl
  | cons hb _ ih =>
    obtain ⟨a, rfl⟩ := hb
    simp only [resetAccelerations, List.map_cons] at ih ⊢
    rw [ih]

/-- C4: acceleration reset.  Calling `calculateGravityEffects` twice in a row gives exactly
the state of calling it once, and two collections that agree body by body in every field
except the acceleration give identical results. -/
theorem calculateGravityEffects_reset (sqrt : F → F) :
    (∀ bodies : List (Body F),
      calculateGravityEffects sqrt (calculateGravityEffects sqrt bodies)
        = calculateGravityEffects sqrt bodies) ∧
    (∀ bodies bodies' : List (Body F),
      List.Forall₂ (fun b b' : Body F => ∃ a : Vector2f F, b' = { b with acceleration := a })
        bodies bodies' →
      calculateGravityEffects sqrt bodies' = calculateGravityEffects sqrt bodies) := by
  constructor
  · intro bodies
    exact calculateGravityEffects_congr sqrt _ _
      (resetAccelerations_calculateGravityEffects sqrt bodies)
  · intro bodies bodies' h
    exact calculateGravityEffects_congr sqrt _ _
      (resetAccelerations_eq_of_forall₂ bodies bodies' h).symm

theorem calculateGravityEffects_reset_witness :
    calculateGravityEffects Rat.sqrt
        [{ sampleA with acceleration := ⟨5, 5⟩ }, { sampleB with acceleration := ⟨-1, 0⟩ },
         { sampleNear with acceleration := ⟨0, 9⟩ }]
      = calculateGravityEffects Rat.sqrt [sampleA, sampleB, sampleNear] :=
  (calculateGravityEffects_reset Rat.sqrt).2 [sampleA, sampleB, sampleNear] _
    (.cons ⟨_, rfl⟩ (.cons ⟨_, rfl⟩ (.cons ⟨_, rfl⟩ .nil)))

end Reset

/-! ## One frame of the main loop -/

section Frame
variable {F : Type} [LinearOrderedField F]

/-- The solver on a three-element vector runs the pair step for `(0, 1)`, `(0, 2)`, `(1, 2)`,
in this order. -/
theorem calculateGravityEffects_triple (sqrt : F → F) (b0 b1 b2 : Body F) :
    calculateGravityEffects sqrt [b0, b1, b2] =
      pairStep sqrt (pairStep sqrt (pairStep sqrt (resetAccelerations [b0, b1, b2]) 0 1) 0 2)
        1 2 := by
  simp [calculateGravityEffects, innerLoop, List.range_succ, List.range']

/-- Positions after the update loop of the frame. -/
theorem updateAll_position (dt : F) (clockAt : Nat → F) (k : Nat) (bodies : List (Body F)) :
    (updateAll dt clockAt k bodies).map (fun b => b.position) =
      bodies.map fun (b : Body F) =>
        b.position + ((b.velocity + b.acceleration * dt) / (20000 : F)) * dt := by
  induction bodies generalizing k with
  | nil => rfl
  | cons b bs ih =>
    simp only [updateAll, List.map_cons, ih, (updatePos_fields dt (clockAt k) b).2.1]

/-- The solver on the initial scenario: the three bodies with their accelerations, each a
sum of two pair contributions computed from the initial positions. -/
theorem calculateGravityEffects_initialBodies (sqrt : F → F) (startAt : Nat → F) :
    calculateGravityEffects sqrt (initialBodies startAt) =
      [{ Body.new 960 540 25 5e24 Color.Yellow false (startAt 0) with
          acceleration :=
            ⟨0, 0⟩
            + (G F * 5e15 / (20000 * sqrt 22500) ^ 2)
                * (((⟨1110, 540⟩ : Vector2f F) - ⟨960, 540⟩) / sqrt 22500)
            + (G F * 5e23 / (20000 * sqrt 40000) ^ 2)
                * (((⟨760, 540⟩ : Vector2f F) - ⟨960, 540⟩) / sqrt 40000) },
       { Body.new 1110 540 10 5e15 Color.Green true (startAt 1) with
          velocity := ⟨0, 10000⟩
          acceleration :=
            ⟨0, 0⟩
            + (G F * 5e24 / (20000 * sqrt 22500) ^ 2)
                * (-(((⟨1110, 540⟩ : Vector2f F) - ⟨960, 540⟩) / sqrt 22500))
            + (G F * 5e23 / (20000 * sqrt 122500) ^ 2)
                * (((⟨760, 540⟩ : Vector2f F) - ⟨1110, 540⟩) / sqrt 122500) },
       { Body.new 760 540 16 5e23 Color.Blue true (startAt 2) with
          velocity := ⟨0, -9000⟩
          acceleration :=
            ⟨0, 0⟩
            + (G F * 5e24 / (20000 * sqrt 40000) ^ 2)
                * (-(((⟨760, 540⟩ : Vector2f F) - ⟨960, 540⟩) / sqrt 40000))
            + (G F * 5e15 / (20000 * sqrt 122500) ^ 2)
                * (-(((⟨760, 540⟩ : Vector2f F) - ⟨1110, 540⟩) / sqrt 122500)) }] := by
  simp only [initialBodies, List.nil_append, List.singleton_append, List.cons_append]
  rw [calculateGravityEffects_triple]
  simp only [resetAccelerations, List.map]
  rw [pairStep_far sqrt _ 0 1 _ _ rfl rfl (by norm_num [Body.new, WIDTH, HEIGHT])]
  simp only [addAcceleration, List.getElem?_cons_zero, List.set_cons_zero,
    List.getElem?_cons_succ, List.set_cons_succ]
  rw [pairStep_far sqrt _ 0 2 _ _ rfl rfl (by norm_num [Body.new, WIDTH, HEIGHT])]
  simp only [addAcceleration, List.getElem?_cons_zero, List.set_cons_zero,
    List.getElem?_cons_succ, List.set_cons_succ]
  rw [pairStep_far sqrt _ 1 2 _ _ rfl rfl (by norm_num [Body.new, WIDTH, HEIGHT])]
  simp only [addAcceleration, List.getElem?_cons_zero, List.set_cons_zero,
    List.getElem?_cons_succ, List.set_cons_succ]
  simp only [Body.new, WIDTH, HEIGHT]
  norm_num

/-- C10: end-to-end first frame.  From the hardcoded three-body scenario (masses 5e24, 5e15,
5e23 at (960,540), (1110,540), (760,540) with velocities (0,0), (0,10000), (0,-9000)), one
frame with real elapsed time 0.01, hence simulation step `dt = 1`, moves each body to
`initial position + ((initial velocity + a * dt) / 20000) * dt`, where `a` is the
acceleration that the solver computes for that body from the initial positions of all three
bodies, before any body has moved. -/
theorem first_frame (sqrt : F → F) (startAt clockAt : Nat → F) :
    (initialBodies startAt).map (fun b => b.mass) = [5e24, 5e15, 5e23] ∧
    (initialBodies startAt).map (fun b => b.position)
      = [⟨960, 540⟩, ⟨1110, 540⟩, ⟨760, 540⟩] ∧
    (initialBodies startAt).map (fun b => b.velocity) = [⟨0, 0⟩, ⟨0, 10000⟩, ⟨0, -9000⟩] ∧
    (let solved := calculateGravityEffects sqrt (initialBodies startAt)
     let next := frame sqrt 0.01 clockAt (initialBodies startAt)
     let p0 : Vector2f F := ⟨960, 540⟩
     let p1 : Vector2f F := ⟨1110, 540⟩
     let p2 : Vector2f F := ⟨760, 540⟩
     let a0 : Vector2f F :=
       ⟨0, 0⟩ + (G F * 5e15 / (20000 * sqrt 22500) ^ 2) * ((p1 - p0) / sqrt 22500)
         + (G F * 5e23 / (20000 * sqrt 40000) ^ 2) * ((p2 - p0) / sqrt 40000)
     let a1 : Vector2f F :=
       ⟨0, 0⟩ + (G F * 5e24 / (20000 * sqrt 22500) ^ 2) * (-((p1 - p0) / sqrt 22500))
         + (G F * 5e23 / (20000 * sqrt 122500) ^ 2) * ((p2 - p1) / sqrt 122500)
     let a2 : Vector2f F :=
       ⟨0, 0⟩ + (G F * 5e24 / (20000 * sqrt 40000) ^ 2) * (-((p2 - p0) / sqrt 40000))
         + (G F * 5e15 / (20000 * sqrt 122500) ^ 2) * (-((p2 - p1) / sqrt 122500))
     solved.map (fun b => b.acceleration) = [a0, a1, a2] ∧
     solved.map (fun b => b.position) = [p0, p1, p2] ∧
     next.map (fun b => b.position) =
       [p0 + (((⟨0, 0⟩ : Vector2f F) + a0 * (1 : F)) / (20000 : F)) * (1 : F),
        p1 + (((⟨0, 10000⟩ : Vector2f F) + a1 * (1 : F)) / (20000 : F)) * (1 : F),
        p2 + (((⟨0, -9000⟩ : Vector2f F) + a2 * (1 : F)) / (20000 : F)) * (1 : F)]) := by
  have hsolved := calculateGravityEffects_initialBodies sqrt startAt
  have hdt : (0.01 : F) * SIM_SPEDD F = 1 := by norm_num [SIM_SPEDD]
  refine ⟨?_, ?_, ?_, ?_⟩
  · simp [initialBodies, Body.new]
  · simp [initialBodies, Body.new, WIDTH, HEIGHT]
    norm_num
  · simp [initialBodies, Body.new]
  · intro solved next p0 p1 p2 a0 a1 a2
    refine ⟨?_, ?_, ?_⟩
    · show (calculateGravityEffects sqrt (initialBodies startAt)).map _ = _
      rw [hsolved]
      rfl
    · show (calculateGravityEffects sqrt (initialBodies startAt)).map _ = _
      rw [hsolved]
      rfl
    · show (frame sqrt 0.01 clockAt (initialBodies startAt)).map _ = _
      unfold frame
      dsimp only
      rw [hdt, updateAll_position, hsolved]
      rfl

end Frame

/-! ## Gravity solver: all pairs -/

section AllPairs
variable {F : Type} [LinearOrderedField F]

theorem sepSq_comm (bi bj : Body F) : sepSq bj bi = sepSq bi bj := by
  simp only [sepSq, Vector2f.sub_x, Vector2f.sub_y]
  ring

/-- The update of the second body of a pair is the law `pull` seen from that body. -/
theorem pull_symm (sqrt : F → F) (bi bj : Body F) :
    (G F * bi.mass / (20000 * sqrt (sepSq bi bj)) ^ 2)
        * (-((bj.position - bi.position) / sqrt (sepSq bi bj)))
      = pull sqrt bj bi := by
  unfold pull
  rw [sepSq_comm bi bj]
  ext <;> simp <;> ring

/-- The pair step in terms of the law `pull`. -/
theorem pairStep_eq_pull (sqrt : F → F) (bs : List (Body F)) (i j : Nat) (bi bj : Body F)
    (hi : bs[i]? = some bi) (hj : bs[j]? = some bj) :
    pairStep sqrt bs i j =
      if sepSq bi bj < 1 then bs
      else addAcceleration (addAcceleration bs i (pull sqrt bi bj)) j (pull sqrt bj bi) := by
  by_cases h : sepSq bi bj < 1
  · rw [if_pos h]
    exact pairStep_near sqrt bs i j bi bj hi hj h
  · rw [if_neg h, pairStep_far sqrt bs i j bi bj hi hj (not_lt.mp h), ← pull_symm sqrt bi bj]
    rfl

/-- One `+=` on a collection described by the original bodies and a table of accelerations. -/
theorem addAcceleration_rep (bodies bs : List (Body F)) (A : Nat → Vector2f F) (i : Nat)
    (a : Vector2f F)
    (h : ∀ k : Nat, bs[k]? = (bodies[k]?).map fun (b : Body F) => { b with acceleration := A k })
    (k : Nat) :
    (addAcceleration bs i a)[k]? =
      (bodies[k]?).map fun (b : Body F) =>
        { b with acceleration := if k = i then A k + a else A k } := by
  by_cases hk : k = i
  · subst hk
    rw [if_pos rfl]
    cases hb : bodies[k]? with
    | none =>
      have hn : bs[k]? = none := by rw [h k, hb]; rfl
      simp [addAcceleration, hn]
    | some b =>
      have hs : bs[k]? = some { b with acceleration := A k } := by rw [h k, hb]; rfl
      rw [getElem?_addAcceleration_self bs k a _ hs]
      rfl
  · rw [if_neg hk, getElem?_addAcceleration_ne bs i k a (Ne.symm hk), h k]

/-- One pair step on a collection described by the original bodies and a table of
accelerations: the two bodies of the pair receive their `pairAcc`. -/
theorem pairStep_rep (sqrt : F → F) (bodies bs : List (Body F)) (A : Nat → Vector2f F)
    (i j : Nat) (hij : i ≠ j)
    (h : ∀ k : Nat, bs[k]? = (bodies[k]?).map fun (b : Body F) => { b with acceleration := A k })
    (k : Nat) :
    (pairStep sqrt bs i j)[k]? =
      (bodies[k]?).map fun (b : Body F) =>
        { b with
          acceleration :=
            A k + (if k = i then pairAcc sqrt bodies i j else 0)
              + (if k = j then pairAcc sqrt bodies j i else 0) } := by
  cases hbi : bodies[i]? with
  | none =>
    have hn : bs[i]? = none := by rw [h i, hbi]; rfl
    have e1 : pairAcc sqrt bodies i j = 0 := by simp [pairAcc, hbi]
    have e2 : pairAcc sqrt bodies j i = 0 := by simp [pairAcc, hbi]
    have hstep : pairStep sqrt bs i j = bs := by simp [pairStep, hn]
    rw [hstep, e1, e2, h k]
    simp
  | some bi =>
    cases hbj : bodies[j]? with
    | none =>
      have hn : bs[j]? = none := by rw [h j, hbj]; rfl
      have e1 : pairAcc sqrt bodies i j = 0 := by simp [pairAcc, hbj]
      have e2 : pairAcc sqrt bodies j i = 0 := by simp [pairAcc, hbj]
      have hstep : pairStep sqrt bs i j = bs := by simp [pairStep, hn]
      rw [hstep, e1, e2, h k]
      simp
    | some bj =>
      have hsi : bs[i]? = some { bi with acceleration := A i } := by rw [h i, hbi]; rfl
      have hsj : bs[j]? = some { bj with acceleration := A j } := by rw [h j, hbj]; rfl
      rw [pairStep_eq_pull sqrt bs i j _ _ hsi hsj]
      have hsep : sepSq ({ bi with acceleration := A i } : Body F)
          ({ bj with acceleration := A j } : Body F) = sepSq bi bj := rfl
      have hp1 : pull sqrt ({ bi with acceleration := A i } : Body F)
          ({ bj with acceleration := A j } : Body F) = pull sqrt bi bj := rfl
      have hp2 : pull sqrt ({ bj with acceleration := A j } : Body F)
          ({ bi with acceleration := A i } : Body F) = pull sqrt bj bi := rfl
      rw [hsep, hp1, hp2]
      by_cases hnear : sepSq bi bj < 1
      · have hnear' : sepSq bj bi < 1 := by rw [sepSq_comm]; exact hnear
        have e1 : pairAcc sqrt bodies i j = 0 := by simp [pairAcc, hbi, hbj, hnear]
        have e2 : pairAcc sqrt bodies j i = 0 := by simp [pairAcc, hbi, hbj, hnear']
        rw [if_pos hnear, e1, e2, h k]
        simp
      · have hfar' : ¬ sepSq bj bi < 1 := by rw [sepSq_comm]; exact hnear
        have e1 : pairAcc sqrt bodies i j = pull sqrt bi bj := by
          simp [pairAcc, hbi, hbj, hnear]
        have e2 : pairAcc sqrt bodies j i = pull sqrt bj bi := by
          simp [pairAcc, hbi, hbj, hfar']
        rw [if_neg hnear, e1, e2]
        have h1 := addAcceleration_rep bodies bs A i (pull sqrt bi bj) h
        rw [addAcceleration_rep bodies _
          (fun k => if k = i then A k + pull sqrt bi bj else A k) j (pull sqrt bj bi) h1 k]
        congr 1
        funext b
        by_cases hki : k = i
        · have hkj : k ≠ j := fun e => hij (hki.symm.trans e)
          simp [hki, hkj, hij]
        · by_cases hkj : k = j
          · simp [hki, hkj, Ne.symm hij]
          · simp [hki, hkj]

/-- The first `m` iterations of the inner loop for body `i`: body `i` has received the
contributions of the bodies `i+1, ..., i+m`, and each of these has received that of body `i`. -/
theorem foldl_pairStep_rep (sqrt : F → F) (bodies : List (Body F)) (i m : Nat)
    (bs : List (Body F)) (A : Nat → Vector2f F)
    (h : ∀ k : Nat, bs[k]? = (bodies[k]?).map fun (b : Body F) => { b with acceleration := A k })
    (k : Nat) :
    ((List.range' (i + 1) m).foldl (fun bs j => pairStep sqrt bs i j) bs)[k]? =
      (bodies[k]?).map fun (b : Body F) =>
        { b with
          acceleration :=
            A k + (if k = i then Finset.sum (Finset.Ico (i + 1) (i + 1 + m))
                      fun j => pairAcc sqrt bodies i j
                   else if i < k ∧ k < i + 1 + m then pairAcc sqrt bodies k i else 0) } := by
  induction m generalizing k with
  | zero =>
    have hz : (if k = i then Finset.sum (Finset.Ico (i + 1) (i + 1 + 0))
                  fun j => pairAcc sqrt bodies i j
               else if i < k ∧ k < i + 1 + 0 then pairAcc sqrt bodies k i else 0) = 0 := by
      by_cases hk : k = i
      · simp [hk]
      · have : ¬ (i < k ∧ k < i + 1 + 0) := by omega
        simp [hk, this]
    rw [hz, add_zero]
    exact h k
  | succ m ih =>
    rw [List.range'_1_concat, List.foldl_append, List.foldl_cons, List.foldl_nil]
    rw [pairStep_rep sqrt bodies _ _ i (i + 1 + m) (by omega) ih k]
    congr 1
    funext b
    congr 1
    by_cases hk : k = i
    · have hne : ¬ (k = i + 1 + m) := by omega
      rw [if_pos hk, if_pos hk, if_neg hne, if_pos hk, add_zero, add_assoc]
      congr 1
      rw [show i + 1 + (m + 1) = (i + 1 + m) + 1 from rfl,
        Finset.sum_Ico_succ_top (by omega : i + 1 ≤ i + 1 + m)]
    · rw [if_neg hk, if_neg hk, if_neg hk, add_zero, add_assoc]
      congr 1
      by_cases hkm : k = i + 1 + m
      · have h1 : ¬ (i < k ∧ k < i + 1 + m) := by omega
        have h2 : i < k ∧ k < i + 1 + (m + 1) := by omega
        rw [if_neg h1, if_pos hkm, if_pos h2, zero_add, hkm]
      · by_cases h1 : i < k ∧ k < i + 1 + m
        · have h2 : i < k ∧ k < i + 1 + (m + 1) := by omega
          rw [if_pos h1, if_neg hkm, if_pos h2, add_zero]
        · have h2 : ¬ (i < k ∧ k < i + 1 + (m + 1)) := by omega
          rw [if_neg h1, if_neg hkm, if_neg h2, add_zero]

theorem pairAcc_out_of_range (sqrt : F → F) (bodies : List (Body F)) (k j : Nat)
    (hk : bodies.length ≤ k) : pairAcc sqrt bodies k j = 0 := by
  have hn : bodies[k]? = none := List.getElem?_eq_none hk
  simp [pairAcc, hn]

/-- The whole inner loop for body `i`. -/
theorem innerLoop_rep (sqrt : F → F) (bodies : List (Body F)) (i : Nat)
    (bs : List (Body F)) (A : Nat → Vector2f F) (hlen : bs.length = bodies.length)
    (hi : i < bodies.length)
    (h : ∀ k : Nat, bs[k]? = (bodies[k]?).map fun (b : Body F) => { b with acceleration := A k })
    (k : Nat) :
    (innerLoop sqrt bs i)[k]? =
      (bodies[k]?).map fun (b : Body F) =>
        { b with
          acceleration :=
            A k + (if k = i then Finset.sum (Finset.Ico (i + 1) bodies.length)
                      fun j => pairAcc sqrt bodies i j
                   else if i < k then pairAcc sqrt bodies k i else 0) } := by
  unfold innerLoop
  rw [foldl_pairStep_rep sqrt bodies i (bs.length - (i + 1)) bs A h k, hlen]
  have hn : i + 1 + (bodies.length - (i + 1)) = bodies.length := by omega
  rw [hn]
  congr 1
  funext b
  congr 2
  by_cases hk : k = i
  · rw [if_pos hk, if_pos hk]
  · rw [if_neg hk, if_neg hk]
    by_cases h1 : i < k
    · by_cases h2 : k < bodies.length
      · rw [if_pos ⟨h1, h2⟩, if_pos h1]
      · rw [if_neg (fun hc => h2 hc.2), if_pos h1,
          pairAcc_out_of_range sqrt bodies k i (not_lt.mp h2)]
    · rw [if_neg (fun hc => h1 hc.1), if_neg h1]

theorem length_foldl_innerLoop (sqrt : F → F) (is : List Nat) (bodies : List (Body F)) :
    (is.foldl (fun bs i => innerLoop sqrt bs i) bodies).length = bodies.length := by
  induction is generalizing bodies with
  | nil => rfl
  | cons i is ih => simp [ih]

/-- The first `m` iterations of the outer loop, from the reset collection: the bodies below
`m` hold their full sum, the others the contributions of the bodies below `m`. -/
theorem foldl_innerLoop_rep (sqrt : F → F) (bodies : List (Body F)) (m : Nat)
    (hm : m ≤ bodies.length) (k : Nat) :
    ((List.range m).foldl (fun bs i => innerLoop sqrt bs i) (resetAccelerations bodies))[k]? =
      (bodies[k]?).map fun (b : Body F) =>
        { b with
          acceleration :=
            if k < m then
              (Finset.sum (Finset.range k) fun j => pairAcc sqrt bodies k j)
                + Finset.sum (Finset.Ico (k + 1) bodies.length) fun j => pairAcc sqrt bodies k j
            else Finset.sum (Finset.range m) fun j => pairAcc sqrt bodies k j } := by
  induction m generalizing k with
  | zero =>
    simp only [List.range_zero, List.foldl_nil, Nat.not_lt_zero, if_false, Finset.range_zero,
      Finset.sum_empty, resetAccelerations, List.getElem?_map]
    rfl
  | succ m ih =>
    rw [List.range_succ, List.foldl_append, List.foldl_cons, List.foldl_nil]
    rw [innerLoop_rep sqrt bodies m _ _
      (by rw [length_foldl_innerLoop, length_resetAccelerations]) (by omega)
      (fun k => ih (by omega) k) k]
    congr 1
    funext b
    congr 1
    by_cases hk : k = m
    · subst hk
      rw [if_neg (lt_irrefl k), if_pos rfl, if_pos (Nat.lt_succ_self k)]
    · rw [if_neg hk]
      by_cases h1 : m < k
      · have h2 : ¬ k < m := by omega
        have h3 : ¬ k < m + 1 := by omega
        rw [if_neg h2, if_pos h1, if_neg h3, Finset.sum_range_succ]
      · have h2 : k < m := by omega
        have h3 : k < m + 1 := by omega
        rw [if_pos h2, if_neg h1, if_pos h3, add_zero]

/-- The solver in closed form: every body holds the contributions of the bodies before it
followed by those of the bodies after it. -/
theorem calculateGravityEffects_getElem? (sqrt : F → F) (bodies : List (Body F)) (k : Nat) :
    (calculateGravityEffects sqrt bodies)[k]? =
      (bodies[k]?).map fun (b : Body F) =>
        { b with
          acceleration :=
            (Finset.sum (Finset.range k) fun j => pairAcc sqrt bodies k j)
              + Finset.sum (Finset.Ico (k + 1) bodies.length)
                  fun j => pairAcc sqrt bodies k j } := by
  unfold calculateGravityEffects
  dsimp only
  rw [length_resetAccelerations, foldl_innerLoop_rep sqrt bodies bodies.length le_rfl k]
  by_cases hk : k < bodies.length
  · rw [if_pos hk]
  · rw [List.getElem?_eq_none (not_lt.mp hk)]
    rfl

theorem sum_map_filter_eq (L : List (Nat × Body F)) (p : Nat × Body F → Bool)
    (f : Nat × Body F → Vector2f F) :
    ((L.filter p).map f).sum = (L.map fun x => if p x then f x else 0).sum := by
  induction L with
  | nil => rfl
  | cons x L ih =>
    by_cases hx : p x
    · simp [List.filter_cons, hx, ih]
    · simp [List.filter_cons, hx, ih]

theorem sum_map_enumFrom (l : List (Body F)) (s : Nat) (g : Nat × Body F → Vector2f F) :
    ((l.enumFrom s).map g).sum =
      Finset.sum (Finset.range l.length) fun j =>
        match l[j]? with
        | some b => g (s + j, b)
        | none => 0 := by
  induction l generalizing s with
  | nil => simp
  | cons a l ih =>
    rw [List.enumFrom_cons, List.map_cons, List.sum_cons, ih (s + 1), List.length_cons,
      Finset.sum_range_succ', add_comm]
    congr 1
    · apply Finset.sum_congr rfl
      intro j _
      rw [List.getElem?_cons_succ, show s + 1 + j = s + (j + 1) by omega]
    · simp

/-- The naive sum as a sum over all indices, the term of the body itself being left out. -/
theorem naiveAcceleration_eq_sum (sqrt : F → F) (bodies : List (Body F)) (i : Nat)
    (hi : i < bodies.length) :
    naiveAcceleration sqrt bodies i =
      Finset.sum (Finset.range bodies.length) fun j =>
        if j = i then 0 else pairAcc sqrt bodies i j := by
  obtain ⟨bi, hbi⟩ : ∃ bi, bodies[i]? = some bi := ⟨bodies[i], List.getElem?_eq_getElem hi⟩
  simp only [naiveAcceleration, hbi, List.enum]
  rw [sum_map_filter_eq, sum_map_enumFrom]
  apply Finset.sum_congr rfl
  intro j hj
  have hjn : j < bodies.length := Finset.mem_range.mp hj
  have hbj : bodies[j]? = some bodies[j] := List.getElem?_eq_getElem hjn
  simp only [hbj, Nat.zero_add, pairAcc, hbi]
  by_cases hji : j = i
  · simp [hji]
  · by_cases hfar : 1 ≤ sepSq bi bodies[j]
    · simp [hji, hfar, not_lt.mpr hfar]
    · simp [hji, hfar, not_le.mp hfar]

theorem sum_skip_eq (f : Nat → Vector2f F) (i n : Nat) (hi : i < n) :
    (Finset.sum (Finset.range n) fun j => if j = i then 0 else f j) =
      (Finset.sum (Finset.range i) f) + Finset.sum (Finset.Ico (i + 1) n) f := by
  rw [← Finset.sum_range_add_sum_Ico _ (le_of_lt hi), Finset.sum_eq_sum_Ico_succ_bot hi,
    if_pos rfl, zero_add]
  congr 1
  · apply Finset.sum_congr rfl
    intro j hj
    have : j ≠ i := by have := Finset.mem_range.mp hj; omega
    rw [if_neg this]
  · apply Finset.sum_congr rfl
    intro j hj
    have : j ≠ i := by have := (Finset.mem_Ico.mp hj).1; omega
    rw [if_neg this]

/-- C11: all-pairs equivalence.  For every collection and every index `i`, the solver's
half-pair loop leaves body `i` with the acceleration `naiveAcceleration`, the full sum over
every other body `j ≠ i` at squared pixel separation at least 1 of
`(G * mass(j) / (20000 * r)^2) * (p_j - p_i) / r`; the other fields of body `i` are those of
the input, and no body appears beyond the input's length. -/
theorem calculateGravityEffects_all_pairs (sqrt : F → F) (bodies : List (Body F)) (i : Nat) :
    (calculateGravityEffects sqrt bodies)[i]? =
      (bodies[i]?).map fun (b : Body F) =>
        { b with acceleration := naiveAcceleration sqrt bodies i } := by
  rw [calculateGravityEffects_getElem?]
  by_cases hi : i < bodies.length
  · rw [naiveAcceleration_eq_sum sqrt bodies i hi, sum_skip_eq _ i bodies.length hi]
  · rw [List.getElem?_eq_none (not_lt.mp hi)]
    rfl

end AllPairs

/-! ## Gravity solver: no division by zero -/

section Checked
variable {F : Type} [LinearOrderedField F]

/-- The rational square root maps `[1, ∞)` into `[1, ∞)`. -/
theorem one_le_rat_sqrt (q : ℚ) (hq : 1 ≤ q) : 1 ≤ Rat.sqrt q := by
  have hden : (0 : ℚ) < (q.den : ℚ) := by exact_mod_cast q.den_pos
  have h1 : (q.den : ℚ) ≤ (q.num : ℚ) := by
    have := Rat.num_div_den q
    rw [← this] at hq
    exact (one_le_div hden).mp hq
  have h2 : (q.den : ℤ) ≤ q.num := by exact_mod_cast h1
  have h3 : q.den ≤ q.num.toNat := by omega
  have h4 : Nat.sqrt q.den ≤ Nat.sqrt q.num.toNat := Nat.sqrt_le_sqrt h3
  have h5 : 0 < Nat.sqrt q.den := Nat.sqrt_pos.mpr q.den_pos
  unfold Rat.sqrt
  rw [Rat.mkRat_eq_div, one_le_div (by exact_mod_cast h5)]
  simp only [Int.sqrt]
  exact_mod_cast h4

/-- Past the guard both divisors of the pair step are non-zero. -/
theorem divisors_ne_zero (sqrt : F → F) (hsqrt : ∀ x : F, 1 ≤ x → 1 ≤ sqrt x) (x : F)
    (hx : 1 ≤ x) :
    1 ≤ sqrt x ∧ sqrt x ≠ 0 ∧
    (20000 : F) ^ 2 ≤ sqrt x * PIXEL_KM F * (sqrt x * PIXEL_KM F) ∧
    sqrt x * PIXEL_KM F * (sqrt x * PIXEL_KM F) ≠ 0 := by
  have h1 : 1 ≤ sqrt x := hsqrt x hx
  have h0 : 0 < sqrt x := lt_of_lt_of_le one_pos h1
  have hk : (20000 : F) ^ 2 ≤ sqrt x * PIXEL_KM F * (sqrt x * PIXEL_KM F) := by
    simp only [PIXEL_KM]
    nlinarith
  refine ⟨h1, ne_of_gt h0, hk, ne_of_gt (lt_of_lt_of_le (by norm_num) hk)⟩

theorem pairStepChecked_eq (sqrt : F → F) (hsqrt : ∀ x : F, 1 ≤ x → 1 ≤ sqrt x)
    (bodies : List (Body F)) (i j : Nat) :
    pairStepChecked sqrt bodies i j = some (pairStep sqrt bodies i j) := by
  unfold pairStepChecked pairStep
  split
  · dsimp only
    split
    · rfl
    · rename_i hfar
      obtain ⟨-, hr, -, hk⟩ := divisors_ne_zero sqrt hsqrt _ (not_lt.mp hfar)
      simp only [checkedDiv, checkedDivVec, if_neg hr, if_neg hk, Option.bind_eq_bind,
        Option.some_bind, Option.pure_def]
  · rfl

theorem foldlM_pairStepChecked_eq (sqrt : F → F) (hsqrt : ∀ x : F, 1 ≤ x → 1 ≤ sqrt x)
    (i : Nat) (js : List Nat) (bodies : List (Body F)) :
    js.foldlM (fun bs j => pairStepChecked sqrt bs i j) bodies
      = some (js.foldl (fun bs j => pairStep sqrt bs i j) bodies) := by
  induction js generalizing bodies with
  | nil => rfl
  | cons j js ih =>
    rw [List.foldlM_cons, pairStepChecked_eq sqrt hsqrt, List.foldl_cons]
    exact ih _

theorem innerLoopChecked_eq (sqrt : F → F) (hsqrt : ∀ x : F, 1 ≤ x → 1 ≤ sqrt x)
    (bodies : List (Body F)) (i : Nat) :
    innerLoopChecked sqrt bodies i = some (innerLoop sqrt bodies i) := by
  unfold innerLoopChecked innerLoop
  exact foldlM_pairStepChecked_eq sqrt hsqrt i _ bodies

theorem foldlM_innerLoopChecked_eq (sqrt : F → F) (hsqrt : ∀ x : F, 1 ≤ x → 1 ≤ sqrt x)
    (is : List Nat) (bodies : List (Body F)) :
    is.foldlM (fun bs i => innerLoopChecked sqrt bs i) bodies
      = some (is.foldl (fun bs i => innerLoop sqrt bs i) bodies) := by
  induction is generalizing bodies with
  | nil => rfl
  | cons i is ih =>
    rw [List.foldlM_cons, innerLoopChecked_eq sqrt hsqrt, List.foldl_cons]
    exact ih _

/-- The error branch of the checked solver is real: with a square root that returns zero, the
pair step of two bodies five pixels apart divides by zero. -/
theorem pairStepChecked_zero_sqrt :
    pairStepChecked (fun _ : ℚ => 0) [sampleA, sampleB] 0 1 = none := by
  simp [pairStepChecked, sampleA, sampleB, Body.new, checkedDiv, checkedDivVec]
  norm_num

end Checked

/-! ## Gravity solver: frame -/

section SolverFrame
variable {F : Type} [LinearOrderedField F]

/-- Two collections with the same reset agree, body by body, in every field but the
acceleration. -/
theorem forall₂_of_resetAccelerations_eq (bodies bodies' : List (Body F))
    (h : resetAccelerations bodies = resetAccelerations bodies') :
    List.Forall₂
      (fun b b' : Body F =>
        b'.position = b.position ∧ b'.radius = b.radius ∧ b'.origin = b.origin ∧
        b'.fillColor = b.fillColor ∧ b'.mass = b.mass ∧ b'.velocity = b.velocity ∧
        b'.trail = b.trail ∧ b'.trailPoints = b.trailPoints ∧ b'.trailClock = b.trailClock)
      bodies bodies' := by
  induction bodies generalizing bodies' with
  | nil =>
    cases bodies' with
    | nil => exact List.Forall₂.nil
    | cons c cs => simp [resetAccelerations] at h
  | cons b bs ih =>
    cases bodies' with
    | nil => simp [resetAccelerations] at h
    | cons c cs =>
      simp only [resetAccelerations, List.map_cons, List.cons.injEq] at h
      obtain ⟨hb, hrest⟩ := h
      refine List.Forall₂.cons ?_ (ih cs hrest)
      have hshape := congrArg Body.toCircleShape hb
      exact ⟨(congrArg CircleShape.position hshape).symm,
        (congrArg CircleShape.radius hshape).symm,
        (congrArg CircleShape.origin hshape).symm,
        (congrArg CircleShape.fillColor hshape).symm,
        (congrArg Body.mass hb).symm, (congrArg Body.velocity hb).symm,
        (congrArg Body.trail hb).symm, (congrArg Body.trailPoints hb).symm,
        (congrArg Body.trailClock hb).symm⟩

/-- C13: solver frame.  `calculateGravityEffects` changes only the acceleration fields: the
number and the order of the bodies are kept, and the body at each place has the same
position, radius, origin, fill colour, mass, velocity, trail flag, trail history and trail
clock after the call as before it. -/
theorem calculateGravityEffects_frame (sqrt : F → F) (bodies : List (Body F)) :
    (calculateGravityEffects sqrt bodies).length = bodies.length ∧
    List.Forall₂
      (fun b b' : Body F =>
        b'.position = b.position ∧ b'.radius = b.radius ∧ b'.origin = b.origin ∧
        b'.fillColor = b.fillColor ∧ b'.mass = b.mass ∧ b'.velocity = b.velocity ∧
        b'.trail = b.trail ∧ b'.trailPoints = b.trailPoints ∧ b'.trailClock = b.trailClock)
      bodies (calculateGravityEffects sqrt bodies) := by
  have h := forall₂_of_resetAccelerations_eq bodies (calculateGravityEffects sqrt bodies)
    (resetAccelerations_calculateGravityEffects sqrt bodies).symm
  exact ⟨h.length_eq.symm, h⟩

end SolverFrame

/-! ## Trail: throttle and sample content -/

/-- The newest point of a history that has just been extended, after the eviction test. -/
theorem getLast?_after_push {F : Type} (T : List (CircleShape F)) (point : CircleShape F) :
    (if (T ++ [point]).length > 200 then (T ++ [point]).eraseIdx 0
      else T ++ [point]).getLast? = some point := by
  split
  · rename_i hlen
    cases T with
    | nil => simp at hlen
    | cons t T => simp
  · simp

section TrailSample
variable {F : Type} [LinearOrderedField F]

/-- A trail update adds at most one point. -/
theorem updateTrail_length_le_succ (now : F) (b : Body F) :
    (b.updateTrail now).trailPoints.length ≤ b.trailPoints.length + 1 := by
  unfold Body.updateTrail
  split
  · omega
  · split
    · dsimp only
      split
      · simp only [List.eraseIdx_zero, List.length_tail, List.length_append,
          List.length_singleton]
        omega
      · simp only [List.length_append, List.length_singleton]
        omega
    · omega

/-- C14: trail throttle.  For a trail-enabled body, `updateTrail` records a sample when the
elapsed time of the body's clock is at least 0.05 (0.05 itself included): the new point is
pushed, the oldest point is erased if the size then exceeds 200, and the clock restarts;
when the elapsed time is below 0.05 the body, hence its trail history and its clock, is left
unchanged; and one call never adds more than one point. -/
theorem trail_throttle (now : F) (b : Body F) (ht : b.trail = true) :
    let point : CircleShape F :=
      { position := b.position, radius := 1, origin := ⟨0, 0⟩,
        fillColor := { b.fillColor with a := 150 } }
    (b.trailClock.getElapsedTime now ≥ 0.05 →
      (b.updateTrail now).trailPoints =
        (if (b.trailPoints ++ [point]).length > 200 then (b.trailPoints ++ [point]).eraseIdx 0
          else b.trailPoints ++ [point]) ∧
      (b.updateTrail now).trailPoints.getLast? = some point ∧
      (b.updateTrail now).trailClock.startTime = now) ∧
    (b.trailClock.getElapsedTime now < 0.05 → b.updateTrail now = b) ∧
    (b.updateTrail now).trailPoints.length ≤ b.trailPoints.length + 1 := by
  intro point
  refine ⟨?_, ?_, updateTrail_length_le_succ now b⟩
  · intro h
    have hrec := updateTrail_record now b ht h
    dsimp only at hrec
    rw [hrec]
    exact ⟨rfl, getLast?_after_push b.trailPoints point, rfl⟩
  · intro h
    exact updateTrail_skip now b h

theorem trail_throttle_witness :
    (sampleB.updateTrail (1 / 20)).trailPoints =
        [{ position := ⟨3, 4⟩, radius := 1, origin := ⟨0, 0⟩, fillColor := ⟨0, 255, 0, 150⟩ }] ∧
    (sampleB.updateTrail (1 / 20)).trailClock.startTime = 1 / 20 ∧
    sampleB.updateTrail (1 / 25) = sampleB := by
  obtain ⟨hrec, hskip, -⟩ := trail_throttle (1 / 20 : ℚ) sampleB rfl
  obtain ⟨hskip', -⟩ := (trail_throttle (1 / 25 : ℚ) sampleB rfl).2
  obtain ⟨h1, -, h3⟩ := hrec (by norm_num [Clock.getElapsedTime, sampleB, Body.new])
  refine ⟨?_, h3, hskip' (by norm_num [Clock.getElapsedTime, sampleB, Body.new])⟩
  rw [h1]
  simp [sampleB, Body.new, Color.Green]

/-- C15: trail sample content.  When `updatePos(dt)` records a trail sample (trail enabled,
elapsed time at least 0.05), the newest point of the trail history has radius 1, lies at the
body's position after this call's move, `p + ((v + a * dt) / 20000) * dt`, and carries the
body's fill colour with red, green and blue unchanged and alpha 150; the clock is restarted,
so its elapsed time at that instant is zero; the body's own fill colour is unchanged. -/
theorem trail_sample_content (dt now : F) (b : Body F) (ht : b.trail = true)
    (h : b.trailClock.getElapsedTime now ≥ 0.05) :
    (b.updatePos dt now).trailPoints.getLast? =
      some { position := b.position + ((b.velocity + b.acceleration * dt) / (20000 : F)) * dt,
             radius := 1, origin := ⟨0, 0⟩,
             fillColor := { r := b.fillColor.r, g := b.fillColor.g, b := b.fillColor.b,
                            a := 150 } } ∧
    (b.updatePos dt now).position
      = b.position + ((b.velocity + b.acceleration * dt) / (20000 : F)) * dt ∧
    (b.updatePos dt now).trailClock.getElapsedTime now = 0 ∧
    (b.updatePos dt now).fillColor = b.fillColor := by
  unfold Body.updatePos
  dsimp only
  have hrec := updateTrail_record now
    ({ b with velocity := b.velocity + b.acceleration * dt,
              position := b.position + ((b.velocity + b.acceleration * dt) / PIXEL_KM F) * dt } :
      Body F) ht h
  dsimp only at hrec
  rw [hrec]
  refine ⟨getLast?_after_push _ _, rfl, ?_, rfl⟩
  simp [Clock.getElapsedTime]

theorem trail_sample_content_witness :
    (sampleMover.updatePos 2 1).trailPoints.getLast? =
      some { position := ⟨1, -2⟩, radius := 1, origin := ⟨0, 0⟩,
             fillColor := ⟨255, 255, 0, 150⟩ } ∧
    (sampleMover.updatePos 2 1).trailClock.getElapsedTime 1 = 0 ∧
    (sampleMover.updatePos 2 1).fillColor = Color.Yellow := by
  obtain ⟨h1, -, h3, h4⟩ := trail_sample_content (2 : ℚ) 1 sampleMover rfl
    (by norm_num [Clock.getElapsedTime, sampleMover, Body.new])
  refine ⟨?_, h3, h4⟩
  rw [h1]
  simp [sampleMover, Body.new, Color.Yellow]
  ext <;> norm_num

end TrailSample

/-! ## Gravity solver: momentum balance -/

section Momentum
variable {F : Type} [LinearOrderedField F]

theorem massWeightedSum_addAcceleration (bodies : List (Body F)) (k : Nat) (a : Vector2f F)
    (b : Body F) (h : bodies[k]? = some b) :
    massWeightedSum (addAcceleration bodies k a) = massWeightedSum bodies + b.mass * a := by
  have hk : k < bodies.length := (List.getElem?_eq_some.mp h).1
  simp only [addAcceleration, h]
  induction bodies generalizing k with
  | nil => simp at hk
  | cons c cs ih =>
    cases k with
    | zero =>
      simp only [List.getElem?_cons_zero, Option.some.injEq] at h
      subst h
      simp only [massWeightedSum, List.set_cons_zero, List.map_cons, List.sum_cons]
      ext <;> simp <;> ring
    | succ k =>
      simp only [List.getElem?_cons_succ] at h
      have hk' : k < cs.length := by simpa using hk
      have := ih k h hk'
      simp only [massWeightedSum, List.set_cons_succ, List.map_cons, List.sum_cons] at this ⊢
      rw [this, add_assoc]

/-- The two updates of a pair cancel in the mass-weighted sum. -/
theorem mass_pull_cancel (sqrt : F → F) (bi bj : Body F) :
    bi.mass * pull sqrt bi bj + bj.mass * pull sqrt bj bi = 0 := by
  unfold pull
  rw [sepSq_comm bi bj]
  ext <;> simp <;> ring

theorem massWeightedSum_pairStep (sqrt : F → F) (bodies : List (Body F)) (i j : Nat) :
    massWeightedSum (pairStep sqrt bodies i j) = massWeightedSum bodies := by
  cases hi : bodies[i]? with
  | none => simp [pairStep, hi]
  | some bi =>
    cases hj : bodies[j]? with
    | none => simp [pairStep, hi, hj]
    | some bj =>
      rw [pairStep_eq_pull sqrt bodies i j bi bj hi hj]
      split
      · rfl
      · have hj' : ∃ bj' : Body F,
            (addAcceleration bodies i (pull sqrt bi bj))[j]? = some bj' ∧ bj'.mass = bj.mass := by
          by_cases hij : i = j
          · subst hij
            rw [hi] at hj
            cases hj
            exact ⟨_, getElem?_addAcceleration_self bodies i _ bi hi, rfl⟩
          · exact ⟨bj, by rw [getElem?_addAcceleration_ne bodies i j _ hij]; exact hj, rfl⟩
        obtain ⟨bj', hbj', hmass⟩ := hj'
        rw [massWeightedSum_addAcceleration _ j _ bj' hbj',
          massWeightedSum_addAcceleration bodies i _ bi hi, hmass, add_assoc,
          mass_pull_cancel, add_zero]

theorem massWeightedSum_innerLoop (sqrt : F → F) (bodies : List (Body F)) (i : Nat) :
    massWeightedSum (innerLoop sqrt bodies i) = massWeightedSum bodies := by
  unfold innerLoop
  generalize List.range' (i + 1) (bodies.length - (i + 1)) = js
  induction js generalizing bodies with
  | nil => rfl
  | cons j js ih => rw [List.foldl_cons, ih, massWeightedSum_pairStep]

theorem massWeightedSum_foldl_innerLoop (sqrt : F → F) (is : List Nat)
    (bodies : List (Body F)) :
    massWeightedSum (is.foldl (fun bs i => innerLoop sqrt bs i) bodies)
      = massWeightedSum bodies := by
  induction is generalizing bodies with
  | nil => rfl
  | cons i is ih => rw [List.foldl_cons, ih, massWeightedSum_innerLoop]

theorem massWeightedSum_resetAccelerations (bodies : List (Body F)) :
    massWeightedSum (resetAccelerations bodies) = 0 := by
  induction bodies with
  | nil => rfl
  | cons b bs ih =>
    simp only [massWeightedSum, resetAccelerations, List.map_cons, List.sum_cons] at ih ⊢
    rw [ih]
    ext <;> simp

/-- C16: momentum balance.  For every collection, with any masses and positions (bodies
closer than one pixel included), the mass-weighted sum of the accelerations left by
`calculateGravityEffects` is the zero vector, in exact arithmetic. -/
theorem momentum_balance (sqrt : F → F) (bodies : List (Body F)) :
    ((calculateGravityEffects sqrt bodies).map fun b => b.mass * b.acceleration).sum
      = (⟨0, 0⟩ : Vector2f F) := by
  have h : massWeightedSum (calculateGravityEffects sqrt bodies) = 0 := by
    unfold calculateGravityEffects
    dsimp only
    rw [massWeightedSum_foldl_innerLoop, massWeightedSum_resetAccelerations]
  exact h

end Momentum

/-! ## Gravity solver: order independence -/

section Order
variable {F : Type} [LinearOrderedField F]

theorem sepSq_self (b : Body F) : sepSq b b = 0 := by
  simp [sepSq]

theorem sum_map_eq_sum_range (l : List (Body F)) (g : Body F → Vector2f F) :
    (l.map g).sum =
      Finset.sum (Finset.range l.length) fun j =>
        match l[j]? with
        | some c => g c
        | none => 0 := by
  induction l with
  | nil => simp
  | cons a l ih =>
    rw [List.map_cons, List.sum_cons, ih, List.length_cons, Finset.sum_range_succ', add_comm]
    congr 1
    · apply Finset.sum_congr rfl
      intro j _
      rw [List.getElem?_cons_succ]
    · simp

/-- The naive sum for a body is its net pull from the whole collection: the body's own term
vanishes under the guard. -/
theorem naiveAcceleration_eq_netPull (sqrt : F → F) (bodies : List (Body F)) (i : Nat)
    (bi : Body F) (hbi : bodies[i]? = some bi) :
    naiveAcceleration sqrt bodies i = netPull sqrt bodies bi := by
  have hi : i < bodies.length := (List.getElem?_eq_some.mp hbi).1
  rw [naiveAcceleration_eq_sum sqrt bodies i hi, netPull, sum_map_eq_sum_range]
  apply Finset.sum_congr rfl
  intro j hj
  have hjn : j < bodies.length := Finset.mem_range.mp hj
  have hbj : bodies[j]? = some bodies[j] := List.getElem?_eq_getElem hjn
  by_cases hji : j = i
  · subst hji
    simp only [if_pos rfl, hbi]
    simp [sepSq_self]
  · simp only [if_neg hji, pairAcc, hbi, hbj]

/-- The solver as a map: every body receives its net pull from the whole collection. -/
theorem calculateGravityEffects_eq_map (sqrt : F → F) (bodies : List (Body F)) :
    calculateGravityEffects sqrt bodies =
      bodies.map fun (b : Body F) => { b with acceleration := netPull sqrt bodies b } := by
  apply List.ext_getElem?
  intro k
  rw [calculateGravityEffects_getElem?, List.getElem?_map]
  cases hb : bodies[k]? with
  | none => rfl
  | some b =>
    have hk : k < bodies.length := (List.getElem?_eq_some.mp hb).1
    have h1 := naiveAcceleration_eq_sum sqrt bodies k hk
    rw [sum_skip_eq _ k bodies.length hk] at h1
    rw [← h1, naiveAcceleration_eq_netPull sqrt bodies k b hb]
    rfl

theorem netPull_perm (sqrt : F → F) (bodies bodies' : List (Body F))
    (h : bodies.Perm bodies') (b : Body F) :
    netPull sqrt bodies b = netPull sqrt bodies' b := by
  unfold netPull
  exact (h.map _).sum_eq

/-- C17: order independence.  For every collection and every permutation of its bodies, the
results of `calculateGravityEffects` on the two orders are permutations of each other, and a
body that stands at place `k` in one order and at place `k'` in the other leaves the solver
in the same state, so with the same acceleration, in both runs (exact arithmetic). -/
theorem calculateGravityEffects_perm (sqrt : F → F) (bodies bodies' : List (Body F))
    (h : bodies.Perm bodies') :
    (calculateGravityEffects sqrt bodies).Perm (calculateGravityEffects sqrt bodies') ∧
    ∀ (k k' : Nat) (b : Body F), bodies[k]? = some b → bodies'[k']? = some b →
      (calculateGravityEffects sqrt bodies')[k']? = (calculateGravityEffects sqrt bodies)[k]? ∧
      (calculateGravityEffects sqrt bodies)[k]?
        = some { b with acceleration := naiveAcceleration sqrt bodies k } := by
  have hfun : (fun (b : Body F) => ({ b with acceleration := netPull sqrt bodies' b } : Body F))
      = fun (b : Body F) => { b with acceleration := netPull sqrt bodies b } := by
    funext b
    rw [netPull_perm sqrt bodies bodies' h b]
  rw [calculateGravityEffects_eq_map sqrt bodies, calculateGravityEffects_eq_map sqrt bodies',
    hfun]
  refine ⟨h.map _, ?_⟩
  intro k k' b hk hk'
  rw [List.getElem?_map, List.getElem?_map, hk, hk',
    naiveAcceleration_eq_netPull sqrt bodies k b hk]
  exact ⟨rfl, rfl⟩

theorem calculateGravityEffects_perm_witness :
    (calculateGravityEffects Rat.sqrt [sampleNear, sampleA, sampleB])[1]?
      = (calculateGravityEffects Rat.sqrt [sampleA, sampleB, sampleNear])[0]? ∧
    (calculateGravityEffects Rat.sqrt [sampleNear, sampleA, sampleB])[2]?
      = (calculateGravityEffects Rat.sqrt [sampleA, sampleB, sampleNear])[1]? :=
  ⟨((calculateGravityEffects_perm Rat.sqrt [sampleA, sampleB, sampleNear]
      [sampleNear, sampleA, sampleB]
      (@List.perm_append_comm _ [sampleA, sampleB] [sampleNear])).2
      0 1 sampleA rfl rfl).1,
   ((calculateGravityEffects_perm Rat.sqrt [sampleA, sampleB, sampleNear]
      [sampleNear, sampleA, sampleB]
      (@List.perm_append_comm _ [sampleA, sampleB] [sampleNear])).2
      1 2 sampleB rfl rfl).1⟩

end Order

/-! ## Gravity solver: attraction -/

section Attraction
variable {F : Type} [LinearOrderedField F]

/-- The solver on two bodies at least one pixel apart, each acceleration written as a
multiple of the vector towards the other body. -/
theorem calculateGravityEffects_pair_towards (sqrt : F → F) (b0 b1 : Body F)
    (h : 1 ≤ sepSq b0 b1) :
    calculateGravityEffects sqrt [b0, b1] =
      [{ b0 with
          acceleration :=
            (G F * b1.mass / (20000 * sqrt (sepSq b0 b1)) ^ 2 / sqrt (sepSq b0 b1))
              * (b1.position - b0.position) },
       { b1 with
          acceleration :=
            (G F * b0.mass / (20000 * sqrt (sepSq b0 b1)) ^ 2 / sqrt (sepSq b0 b1))
              * (b0.position - b1.position) }] := by
  rw [calculateGravityEffects_pair,
    pairStep_far sqrt _ 0 1 ({ b0 with acceleration := ⟨0, 0⟩ } : Body F)
      ({ b1 with acceleration := ⟨0, 0⟩ } : Body F) rfl rfl h]
  simp only [resetAccelerations, List.map, addAcceleration, List.getElem?_cons_zero,
    List.set_cons_zero, List.getElem?_cons_succ, List.set_cons_succ]
  congr 2
  · ext <;> simp [sepSq] <;> ring
  · congr 2
    ext <;> simp [sepSq] <;> ring

/-- A positive multiple of the separation vector of two bodies at least one pixel apart is
not the zero vector. -/
theorem smul_separation_ne_zero (c : F) (hc : 0 < c) (b0 b1 : Body F) (h : 1 ≤ sepSq b0 b1) :
    c * (b1.position - b0.position) ≠ (⟨0, 0⟩ : Vector2f F) := by
  intro hzero
  have hx := congrArg Vector2f.x hzero
  have hy := congrArg Vector2f.y hzero
  simp only [Vector2f.smul_x, Vector2f.smul_y, Vector2f.sub_x, Vector2f.sub_y] at hx hy
  have hx0 : b1.position.x - b0.position.x = 0 := by
    rcases mul_eq_zero.mp hx with h0 | h0
    · exact h0
    · exact absurd h0 (ne_of_gt hc)
  have hy0 : b1.position.y - b0.position.y = 0 := by
    rcases mul_eq_zero.mp hy with h0 | h0
    · exact h0
    · exact absurd h0 (ne_of_gt hc)
  simp only [sepSq, Vector2f.sub_x, Vector2f.sub_y, hx0, hy0] at h
  norm_num at h

/-- C18 (as amended): gravity attracts, in exact arithmetic.  With every operation of the
solver taken as the exact operation, for two bodies with strictly positive masses at squared
pixel separation at least 1, and a positive square root of that separation, each acceleration left
by `calculateGravityEffects` is a positive multiple of the vector from that body to the other
one, and is not the zero vector. -/
theorem gravity_attracts (sqrt : F → F) (b0 b1 : Body F) (hm0 : 0 < b0.mass)
    (hm1 : 0 < b1.mass) (h : 1 ≤ sepSq b0 b1) (hr : 0 < sqrt (sepSq b0 b1)) :
    ∃ c0 c1 : F, 0 < c0 ∧ 0 < c1 ∧
      calculateGravityEffects sqrt [b0, b1] =
        [{ b0 with acceleration := c0 * (b1.position - b0.position) },
         { b1 with acceleration := c1 * (b0.position - b1.position) }] ∧
      c0 * (b1.position - b0.position) ≠ (⟨0, 0⟩ : Vector2f F) ∧
      c1 * (b0.position - b1.position) ≠ (⟨0, 0⟩ : Vector2f F) := by
  have hG : (0 : F) < G F := by norm_num [G]
  have hden : (0 : F) < (20000 * sqrt (sepSq b0 b1)) ^ 2 := by positivity
  have hc0 : 0 < G F * b1.mass / (20000 * sqrt (sepSq b0 b1)) ^ 2 / sqrt (sepSq b0 b1) :=
    div_pos (div_pos (mul_pos hG hm1) hden) hr
  have hc1 : 0 < G F * b0.mass / (20000 * sqrt (sepSq b0 b1)) ^ 2 / sqrt (sepSq b0 b1) :=
    div_pos (div_pos (mul_pos hG hm0) hden) hr
  refine ⟨_, _, hc0, hc1, calculateGravityEffects_pair_towards sqrt b0 b1 h,
    smul_separation_ne_zero _ hc0 b0 b1 h, ?_⟩
  exact smul_separation_ne_zero _ hc1 b1 b0 (by rw [sepSq_comm]; exact h)

theorem gravity_attracts_witness :
    ∃ c0 c1 : ℚ, 0 < c0 ∧ 0 < c1 ∧
      calculateGravityEffects Rat.sqrt [sampleA, sampleB] =
        [{ sampleA with acceleration := c0 * (sampleB.position - sampleA.position) },
         { sampleB with acceleration := c1 * (sampleA.position - sampleB.position) }] ∧
      c0 * (sampleB.position - sampleA.position) ≠ (⟨0, 0⟩ : Vector2f ℚ) ∧
      c1 * (sampleA.position - sampleB.position) ≠ (⟨0, 0⟩ : Vector2f ℚ) := by
  have hs : Rat.sqrt (sepSq sampleA sampleB) = 5 := by
    simpa [sepSq, sampleA, sampleB, Body.new] using sqrt_sample
  exact gravity_attracts Rat.sqrt sampleA sampleB (by norm_num [sampleA, Body.new])
    (by norm_num [sampleB, Body.new]) (by norm_num [sepSq, sampleA, sampleB, Body.new])
    (by rw [hs]; norm_num)

end Attraction

/-! ## Floating-point arithmetic: evaluation of roundings -/

theorem roundHalfEven_eq (x : ℚ) (n : ℤ) (h : |x - n| < 1 / 2) : roundHalfEven x = n := by
  rw [abs_lt] at h
  obtain ⟨h1, h2⟩ := h
  unfold roundHalfEven
  by_cases hx : (n : ℚ) ≤ x
  · have hf : ⌊x⌋ = n := by
      rw [Int.floor_eq_iff]
      constructor
      · exact hx
      · linarith
    rw [hf, if_pos (by linarith)]
  · push_neg at hx
    have hf : ⌊x⌋ = n - 1 := by
      rw [Int.floor_eq_iff]
      push_cast
      constructor <;> linarith
    rw [hf]
    push_cast
    rw [if_neg (by linarith), if_pos (by linarith)]
    ring

/-- Rounding of a value in the normal range, given its exponent `e` and the integer `n`
nearest to its significand. -/
theorem Format.round_eval (fmt : Format) (q : ℚ) (e n : ℤ)
    (h1 : (2 : ℚ) ^ e ≤ |q|) (h2 : |q| < (2 : ℚ) ^ (e + 1)) (he : 1 - fmt.emax ≤ e)
    (hn : |q / (2 : ℚ) ^ (e - (fmt.prec - 1)) - n| < 1 / 2) :
    fmt.round q =
      if (2 : ℚ) ^ (fmt.emax + 1) ≤ |(n : ℚ) * (2 : ℚ) ^ (e - (fmt.prec - 1))|
      then Fp.inf (decide (q < 0))
      else Fp.fin ((n : ℚ) * (2 : ℚ) ^ (e - (fmt.prec - 1))) := by
  have hpos : (0 : ℚ) < |q| := lt_of_lt_of_le (by positivity) h1
  have hq : q ≠ 0 := abs_pos.mp hpos
  have hlog : Int.log 2 |q| = e := by
    have ha : e ≤ Int.log 2 |q| :=
      (Int.zpow_le_iff_le_log (by norm_num) hpos).mp (by exact_mod_cast h1)
    have hb : Int.log 2 |q| < e + 1 :=
      (Int.lt_zpow_iff_log_lt (by norm_num) hpos).mp (by exact_mod_cast h2)
    omega
  unfold Format.round
  rw [if_neg hq]
  simp only [hlog, max_eq_left he]
  rw [roundHalfEven_eq _ n hn]

/-- Rounding of a non-zero value below the normal range, given the integer `n` nearest to
its multiple of the smallest subnormal. -/
theorem Format.round_eval_subnormal (fmt : Format) (q : ℚ) (n : ℤ) (hq : q ≠ 0)
    (h2 : |q| < (2 : ℚ) ^ (1 - fmt.emax))
    (hn : |q / (2 : ℚ) ^ (1 - fmt.emax - (fmt.prec - 1)) - n| < 1 / 2) :
    fmt.round q =
      if (2 : ℚ) ^ (fmt.emax + 1) ≤ |(n : ℚ) * (2 : ℚ) ^ (1 - fmt.emax - (fmt.prec - 1))|
      then Fp.inf (decide (q < 0))
      else Fp.fin ((n : ℚ) * (2 : ℚ) ^ (1 - fmt.emax - (fmt.prec - 1))) := by
  have hpos : (0 : ℚ) < |q| := abs_pos.mpr hq
  have hlog : Int.log 2 |q| < 1 - fmt.emax :=
    (Int.lt_zpow_iff_log_lt (by norm_num) hpos).mp (by exact_mod_cast h2)
  unfold Format.round
  rw [if_neg hq]
  simp only [max_eq_right (le_of_lt hlog)]
  rw [roundHalfEven_eq _ n hn]

theorem Format.round_zero (fmt : Format) : fmt.round 0 = Fp.fin 0 := by
  simp [Format.round]

/-! ## Floating-point runs

Evaluation, operation by operation, of the floating-point model on three inputs: the pair
step on masses `1e58` and `1` one pixel apart, the pair step on two masses `1e-30` one pixel
apart, and `updatePos` on a body at `(960, 540)` with velocity `(1/2, -1/2)`. -/

section FloatingPointRuns

theorem fpEval1 : binary64.round 6.674e-11 = Fp.fin (2581878694434571 / 38685626227668133590597632) := by
  rw [Format.round_eval binary64 _ (-34) (5163757388869142) (by norm_num [le_abs, abs_lt])
    (by norm_num [le_abs, abs_lt]) (by norm_num [binary64])
    (by norm_num [binary64, le_abs, abs_lt])]
  norm_num [binary64, le_abs, abs_lt]

theorem fpEval2 : binary32.round 20000 = Fp.fin 20000 := by
  rw [Format.round_eval binary32 _ (14) (10240000) (by norm_num [le_abs, abs_lt])
    (by norm_num [le_abs, abs_lt]) (by norm_num [binary32])
    (by norm_num [binary32, le_abs, abs_lt])]
  norm_num [binary32, le_abs, abs_lt]

theorem fpEval3 : binary64.round 1e58 = Fp.fin 9999999999999999438119489974413630815797154428513196965888 := by
  rw [Format.round_eval binary64 _ (192) (7174648137343063) (by norm_num [le_abs, abs_lt])
    (by norm_num [le_abs, abs_lt]) (by norm_num [binary64])
    (by norm_num [binary64, le_abs, abs_lt])]
  norm_num [binary64, le_abs, abs_lt]

theorem fpEval4 : Fp.sub binary32 (Fp.fin 1) (Fp.fin 0) = Fp.fin 1 := by
  simp only [Fp.sub, Fp.neg, Fp.add]
  rw [Format.round_eval binary32 _ (0) (8388608) (by norm_num [le_abs, abs_lt])
    (by norm_num [le_abs, abs_lt]) (by norm_num [binary32])
    (by norm_num [binary32, le_abs, abs_lt])]
  norm_num [binary32, le_abs, abs_lt]

theorem fpEval5 : Fp.sub binary32 (Fp.fin 0) (Fp.fin 0) = Fp.fin 0 := by
  simp only [Fp.sub, Fp.neg, Fp.add]
  norm_num [Format.round_zero]

theorem fpEval6 : Fp.mul binary32 (Fp.fin 1) (Fp.fin 1) = Fp.fin 1 := by
  simp only [Fp.mul]
  rw [Format.round_eval binary32 _ (0) (8388608) (by norm_num [le_abs, abs_lt])
    (by norm_num [le_abs, abs_lt]) (by norm_num [binary32])
    (by norm_num [binary32, le_abs, abs_lt])]
  norm_num [binary32, le_abs, abs_lt]

theorem fpEval7 : Fp.mul binary32 (Fp.fin 0) (Fp.fin 0) = Fp.fin 0 := by
  simp only [Fp.mul]
  norm_num [Format.round_zero]

theorem fpEval8 : Fp.add binary32 (Fp.fin 1) (Fp.fin 0) = Fp.fin 1 := by
  simp only [Fp.add]
  rw [Format.round_eval binary32 _ (0) (8388608) (by norm_num [le_abs, abs_lt])
    (by norm_num [le_abs, abs_lt]) (by norm_num [binary32])
    (by norm_num [binary32, le_abs, abs_lt])]
  norm_num [binary32, le_abs, abs_lt]

theorem fpEval9 : sqrtOnSquares (Fp.fin 1) = Fp.fin 1 := by
  have h : Rat.sqrt 1 = 1 := by
    have h1 := Rat.sqrt_eq 1
    rwa [mul_one, abs_one] at h1
  simp only [sqrtOnSquares]
  rw [if_neg (by norm_num), h]
  rw [Format.round_eval binary32 _ (0) (8388608) (by norm_num [le_abs, abs_lt])
    (by norm_num [le_abs, abs_lt]) (by norm_num [binary32])
    (by norm_num [binary32, le_abs, abs_lt])]
  norm_num [binary32, le_abs, abs_lt]

theorem fpEval10 : Fp.lt (Fp.fin 1) (Fp.fin 1) = false := by
  norm_num [Fp.lt]

theorem fpEval11 : Fp.mul binary32 (Fp.fin 1) (Fp.fin 20000) = Fp.fin 20000 := by
  simp only [Fp.mul]
  rw [Format.round_eval binary32 _ (14) (10240000) (by norm_num [le_abs, abs_lt])
    (by norm_num [le_abs, abs_lt]) (by norm_num [binary32])
    (by norm_num [binary32, le_abs, abs_lt])]
  norm_num [binary32, le_abs, abs_lt]

theorem fpEval12 : Fp.mul binary32 (Fp.fin 20000) (Fp.fin 20000) = Fp.fin 400000000 := by
  simp only [Fp.mul]
  rw [Format.round_eval binary32 _ (28) (12500000) (by norm_num [le_abs, abs_lt])
    (by norm_num [le_abs, abs_lt]) (by norm_num [binary32])
    (by norm_num [binary32, le_abs, abs_lt])]
  norm_num [binary32, le_abs, abs_lt]

theorem fpEval13 : Fp.mul binary64 (Fp.fin (2581878694434571 / 38685626227668133590597632)) (Fp.fin 1) = Fp.fin (2581878694434571 / 38685626227668133590597632) := by
  simp only [Fp.mul]
  rw [Format.round_eval binary64 _ (-34) (5163757388869142) (by norm_num [le_abs, abs_lt])
    (by norm_num [le_abs, abs_lt]) (by norm_num [binary64])
    (by norm_num [binary64, le_abs, abs_lt])]
  norm_num [binary64, le_abs, abs_lt]

theorem fpEval14 : Fp.div binary64 (Fp.fin (2581878694434571 / 38685626227668133590597632)) (Fp.fin 400000000) = Fp.fin (6930677846772287 / 41538374868278621028243970633760768) := by
  simp only [Fp.div]
  rw [if_neg (by norm_num)]
  rw [Format.round_eval binary64 _ (-63) (6930677846772287) (by norm_num [le_abs, abs_lt])
    (by norm_num [le_abs, abs_lt]) (by norm_num [binary64])
    (by norm_num [binary64, le_abs, abs_lt])]
  norm_num [binary64, le_abs, abs_lt]

theorem fpEval15 : Fp.cast binary32 (Fp.fin (6930677846772287 / 41538374868278621028243970633760768)) = Fp.fin (12909393 / 77371252455336267181195264) := by
  simp only [Fp.cast]
  rw [Format.round_eval binary32 _ (-63) (12909393) (by norm_num [le_abs, abs_lt])
    (by norm_num [le_abs, abs_lt]) (by norm_num [binary32])
    (by norm_num [binary32, le_abs, abs_lt])]
  norm_num [binary32, le_abs, abs_lt]

theorem fpEval16 : Fp.mul binary64 (Fp.fin (2581878694434571 / 38685626227668133590597632)) (Fp.fin 9999999999999999438119489974413630815797154428513196965888) = Fp.fin 667399999999999940506891222704144339289591775232 := by
  simp only [Fp.mul]
  rw [Format.round_eval binary64 _ (158) (8226340127257863) (by norm_num [le_abs, abs_lt])
    (by norm_num [le_abs, abs_lt]) (by norm_num [binary64])
    (by norm_num [binary64, le_abs, abs_lt])]
  norm_num [binary64, le_abs, abs_lt]

theorem fpEval17 : Fp.div binary64 (Fp.fin 667399999999999940506891222704144339289591775232) (Fp.fin 400000000) = Fp.fin 1668499999999999787805779367844447780864 := by
  simp only [Fp.div]
  rw [if_neg (by norm_num)]
  rw [Format.round_eval binary64 _ (130) (5520603408178906) (by norm_num [le_abs, abs_lt])
    (by norm_num [le_abs, abs_lt]) (by norm_num [binary64])
    (by norm_num [binary64, le_abs, abs_lt])]
  norm_num [binary64, le_abs, abs_lt]

theorem fpEval18 : Fp.cast binary32 (Fp.fin 1668499999999999787805779367844447780864) = Fp.inf false := by
  simp only [Fp.cast]
  rw [Format.round_eval binary32 _ (130) (10282925) (by norm_num [le_abs, abs_lt])
    (by norm_num [le_abs, abs_lt]) (by norm_num [binary32])
    (by norm_num [binary32, le_abs, abs_lt])]
  norm_num [binary32, le_abs, abs_lt]

theorem fpEval19 : Fp.div binary32 (Fp.fin 1) (Fp.fin 1) = Fp.fin 1 := by
  simp only [Fp.div]
  rw [if_neg (by norm_num)]
  rw [Format.round_eval binary32 _ (0) (8388608) (by norm_num [le_abs, abs_lt])
    (by norm_num [le_abs, abs_lt]) (by norm_num [binary32])
    (by norm_num [binary32, le_abs, abs_lt])]
  norm_num [binary32, le_abs, abs_lt]

theorem fpEval20 : Fp.div binary32 (Fp.fin 0) (Fp.fin 1) = Fp.fin 0 := by
  simp only [Fp.div]
  rw [if_neg (by norm_num)]
  norm_num [Format.round_zero]

theorem fpEval21 : Fp.mul binary32 (Fp.fin 1) (Fp.fin (12909393 / 77371252455336267181195264)) = Fp.fin (12909393 / 77371252455336267181195264) := by
  simp only [Fp.mul]
  rw [Format.round_eval binary32 _ (-63) (12909393) (by norm_num [le_abs, abs_lt])
    (by norm_num [le_abs, abs_lt]) (by norm_num [binary32])
    (by norm_num [binary32, le_abs, abs_lt])]
  norm_num [binary32, le_abs, abs_lt]

theorem fpEval22 : Fp.mul binary32 (Fp.fin 0) (Fp.fin (12909393 / 77371252455336267181195264)) = Fp.fin 0 := by
  simp only [Fp.mul]
  norm_num [Format.round_zero]

theorem fpEval23 : Fp.add binary32 (Fp.fin 0) (Fp.fin (12909393 / 77371252455336267181195264)) = Fp.fin (12909393 / 77371252455336267181195264) := by
  simp only [Fp.add]
  rw [Format.round_eval binary32 _ (-63) (12909393) (by norm_num [le_abs, abs_lt])
    (by norm_num [le_abs, abs_lt]) (by norm_num [binary32])
    (by norm_num [binary32, le_abs, abs_lt])]
  norm_num [binary32, le_abs, abs_lt]

theorem fpEval24 : Fp.add binary32 (Fp.fin 0) (Fp.fin 0) = Fp.fin 0 := by
  simp only [Fp.add]
  norm_num [Format.round_zero]

theorem fpEval25 : Fp.neg (Fp.fin 1) = Fp.fin (-1) := by
  norm_num [Fp.neg]

theorem fpEval26 : Fp.neg (Fp.fin 0) = Fp.fin 0 := by
  norm_num [Fp.neg]

theorem fpEval27 : Fp.mul binary32 (Fp.fin (-1)) (Fp.inf false) = Fp.inf true := by
  norm_num [Fp.sub, Fp.neg, Fp.add, Fp.mul, Fp.div]

theorem fpEval28 : Fp.mul binary32 (Fp.fin 0) (Fp.inf false) = Fp.nan := by
  norm_num [Fp.sub, Fp.neg, Fp.add, Fp.mul, Fp.div]

theorem fpEval29 : Fp.add binary32 (Fp.fin 0) (Fp.inf true) = Fp.inf true := by
  norm_num [Fp.sub, Fp.neg, Fp.add, Fp.mul, Fp.div]

theorem fpEval30 : Fp.add binary32 (Fp.fin 0) Fp.nan = Fp.nan := by
  norm_num [Fp.sub, Fp.neg, Fp.add, Fp.mul, Fp.div]

theorem fpEval31 : binary64.round 1e-30 = Fp.fin (178405961588245 / 178405961588244985132285746181186892047843328) := by
  rw [Format.round_eval binary64 _ (-100) (5708990770823840) (by norm_num [le_abs, abs_lt])
    (by norm_num [le_abs, abs_lt]) (by norm_num [binary64])
    (by norm_num [binary64, le_abs, abs_lt])]
  norm_num [binary64, le_abs, abs_lt]

theorem fpEval32 : Fp.mul binary64 (Fp.fin (2581878694434571 / 38685626227668133590597632)) (Fp.fin (178405961588245 / 178405961588244985132285746181186892047843328)) = Fp.fin (6545840153432923 / 98079714615416886934934209737619787751599303819750539264) := by
  simp only [Fp.mul]
  rw [Format.round_eval binary64 _ (-134) (6545840153432923) (by norm_num [le_abs, abs_lt])
    (by norm_num [le_abs, abs_lt]) (by norm_num [binary64])
    (by norm_num [binary64, le_abs, abs_lt])]
  norm_num [binary64, le_abs, abs_lt]

theorem fpEval33 : Fp.div binary64 (Fp.fin (6545840153432923 / 98079714615416886934934209737619787751599303819750539264)) (Fp.fin 400000000) = Fp.fin (8785677932449383 / 52656145834278593348959013841835216159447547700274555627155488768) := by
  simp only [Fp.div]
  rw [if_neg (by norm_num)]
  rw [Format.round_eval binary64 _ (-163) (8785677932449383) (by norm_num [le_abs, abs_lt])
    (by norm_num [le_abs, abs_lt]) (by norm_num [binary64])
    (by norm_num [binary64, le_abs, abs_lt])]
  norm_num [binary64, le_abs, abs_lt]

theorem fpEval34 : Fp.cast binary32 (Fp.fin (8785677932449383 / 52656145834278593348959013841835216159447547700274555627155488768)) = Fp.fin 0 := by
  simp only [Fp.cast]
  rw [Format.round_eval_subnormal binary32 _ (0) (by norm_num)
    (by norm_num [binary32, le_abs, abs_lt]) (by norm_num [binary32, le_abs, abs_lt])]
  norm_num [binary32, le_abs, abs_lt]

theorem fpEval35 : Fp.mul binary32 (Fp.fin 1) (Fp.fin 0) = Fp.fin 0 := by
  simp only [Fp.mul]
  norm_num [Format.round_zero]

theorem fpEval36 : Fp.mul binary32 (Fp.fin (-1)) (Fp.fin 0) = Fp.fin 0 := by
  simp only [Fp.mul]
  norm_num [Format.round_zero]

theorem fpEval37 : Fp.mul binary32 (Fp.fin 0) (Fp.fin 1) = Fp.fin 0 := by
  simp only [Fp.mul]
  norm_num [Format.round_zero]

theorem fpEval38 : Fp.add binary32 (Fp.fin (1 / 2)) (Fp.fin 0) = Fp.fin (1 / 2) := by
  simp only [Fp.add]
  rw [Format.round_eval binary32 _ (-1) (8388608) (by norm_num [le_abs, abs_lt])
    (by norm_num [le_abs, abs_lt]) (by norm_num [binary32])
    (by norm_num [binary32, le_abs, abs_lt])]
  norm_num [binary32, le_abs, abs_lt]

theorem fpEval39 : Fp.add binary32 (Fp.fin (-1 / 2)) (Fp.fin 0) = Fp.fin (-1 / 2) := by
  simp only [Fp.add]
  rw [Format.round_eval binary32 _ (-1) (-8388608) (by norm_num [le_abs, abs_lt])
    (by norm_num [le_abs, abs_lt]) (by norm_num [binary32])
    (by norm_num [binary32, le_abs, abs_lt])]
  norm_num [binary32, le_abs, abs_lt]

theorem fpEval40 : Fp.div binary32 (Fp.fin (1 / 2)) (Fp.fin 20000) = Fp.fin (13743895 / 549755813888) := by
  simp only [Fp.div]
  rw [if_neg (by norm_num)]
  rw [Format.round_eval binary32 _ (-16) (13743895) (by norm_num [le_abs, abs_lt])
    (by norm_num [le_abs, abs_lt]) (by norm_num [binary32])
    (by norm_num [binary32, le_abs, abs_lt])]
  norm_num [binary32, le_abs, abs_lt]

theorem fpEval41 : Fp.div binary32 (Fp.fin (-1 / 2)) (Fp.fin 20000) = Fp.fin (-13743895 / 549755813888) := by
  simp only [Fp.div]
  rw [if_neg (by norm_num)]
  rw [Format.round_eval binary32 _ (-16) (-13743895) (by norm_num [le_abs, abs_lt])
    (by norm_num [le_abs, abs_lt]) (by norm_num [binary32])
    (by norm_num [binary32, le_abs, abs_lt])]
  norm_num [binary32, le_abs, abs_lt]

theorem fpEval42 : Fp.mul binary32 (Fp.fin (13743895 / 549755813888)) (Fp.fin 1) = Fp.fin (13743895 / 549755813888) := by
  simp only [Fp.mul]
  rw [Format.round_eval binary32 _ (-16) (13743895) (by norm_num [le_abs, abs_lt])
    (by norm_num [le_abs, abs_lt]) (by norm_num [binary32])
    (by norm_num [binary32, le_abs, abs_lt])]
  norm_num [binary32, le_abs, abs_lt]

theorem fpEval43 : Fp.mul binary32 (Fp.fin (-13743895 / 549755813888)) (Fp.fin 1) = Fp.fin (-13743895 / 549755813888) := by
  simp only [Fp.mul]
  rw [Format.round_eval binary32 _ (-16) (-13743895) (by norm_num [le_abs, abs_lt])
    (by norm_num [le_abs, abs_lt]) (by norm_num [binary32])
    (by norm_num [binary32, le_abs, abs_lt])]
  norm_num [binary32, le_abs, abs_lt]

theorem fpEval44 : Fp.add binary32 (Fp.fin 960) (Fp.fin (13743895 / 549755813888)) = Fp.fin 960 := by
  simp only [Fp.add]
  rw [Format.round_eval binary32 _ (9) (15728640) (by norm_num [le_abs, abs_lt])
    (by norm_num [le_abs, abs_lt]) (by norm_num [binary32])
    (by norm_num [binary32, le_abs, abs_lt])]
  norm_num [binary32, le_abs, abs_lt]

theorem fpEval45 : Fp.add binary32 (Fp.fin 540) (Fp.fin (-13743895 / 549755813888)) = Fp.fin 540 := by
  simp only [Fp.add]
  rw [Format.round_eval binary32 _ (9) (8847360) (by norm_num [le_abs, abs_lt])
    (by norm_num [le_abs, abs_lt]) (by norm_num [binary32])
    (by norm_num [binary32, le_abs, abs_lt])]
  norm_num [binary32, le_abs, abs_lt]

theorem fpEval46 : Fp.mul binary32 (Fp.fin 0) (Fp.fin 2) = Fp.fin 0 := by
  simp only [Fp.mul]
  norm_num [Format.round_zero]

theorem fpEval47 : Fp.mul binary32 (Fp.fin (13743895 / 549755813888)) (Fp.fin 2) = Fp.fin (13743895 / 274877906944) := by
  simp only [Fp.mul]
  rw [Format.round_eval binary32 _ (-15) (13743895) (by norm_num [le_abs, abs_lt])
    (by norm_num [le_abs, abs_lt]) (by norm_num [binary32])
    (by norm_num [binary32, le_abs, abs_lt])]
  norm_num [binary32, le_abs, abs_lt]

theorem fpEval48 : Fp.mul binary32 (Fp.fin (-13743895 / 549755813888)) (Fp.fin 2) = Fp.fin (-13743895 / 274877906944) := by
  simp only [Fp.mul]
  rw [Format.round_eval binary32 _ (-15) (-13743895) (by norm_num [le_abs, abs_lt])
    (by norm_num [le_abs, abs_lt]) (by norm_num [binary32])
    (by norm_num [binary32, le_abs, abs_lt])]
  norm_num [binary32, le_abs, abs_lt]

theorem fpEval49 : Fp.add binary32 (Fp.fin 960) (Fp.fin (13743895 / 274877906944)) = Fp.fin (15728641 / 16384) := by
  simp only [Fp.add]
  rw [Format.round_eval binary32 _ (9) (15728641) (by norm_num [le_abs, abs_lt])
    (by norm_num [le_abs, abs_lt]) (by norm_num [binary32])
    (by norm_num [binary32, le_abs, abs_lt])]
  norm_num [binary32, le_abs, abs_lt]

theorem fpEval50 : Fp.add binary32 (Fp.fin 540) (Fp.fin (-13743895 / 274877906944)) = Fp.fin (8847359 / 16384) := by
  simp only [Fp.add]
  rw [Format.round_eval binary32 _ (9) (8847359) (by norm_num [le_abs, abs_lt])
    (by norm_num [le_abs, abs_lt]) (by norm_num [binary32])
    (by norm_num [binary32, le_abs, abs_lt])]
  norm_num [binary32, le_abs, abs_lt]

theorem length_addAccelerationFp (bodies : List (Body Fp)) (k : Nat) (a : Vector2f Fp) :
    (addAccelerationFp bodies k a).length = bodies.length := by
  unfold addAccelerationFp
  split <;> simp

theorem length_pairStepFp (sqrt : Fp → Fp) (bodies : List (Body Fp)) (i j : Nat) :
    (pairStepFp sqrt bodies i j).length = bodies.length := by
  unfold pairStepFp
  split
  · dsimp only
    split
    · rfl
    · rw [length_addAccelerationFp, length_addAccelerationFp]
  · rfl

/-- The floating-point solver on a two-element vector runs the pair step once, for the pair
`(0, 1)`, after the reset. -/
theorem calculateGravityEffectsFp_pair (sqrt : Fp → Fp) (b0 b1 : Body Fp) :
    calculateGravityEffectsFp sqrt [b0, b1] =
      pairStepFp sqrt
        [{ b0 with acceleration := ⟨Fp.fin 0, Fp.fin 0⟩ },
         { b1 with acceleration := ⟨Fp.fin 0, Fp.fin 0⟩ }] 0 1 := by
  simp [calculateGravityEffectsFp, innerLoopFp, List.range_succ, List.range',
    length_pairStepFp]

/-- C12 as stated fails on the code's arithmetic: with the finite masses `1e58` and `1` at
`(0, 0)` and `(1, 0)`, the magnitude `(float)(G * 1e58 / r_sq_km)` overflows to `+∞`, and the
solver leaves the second body with the acceleration `(-∞, NaN)`; no division by zero
occurs. -/
theorem calculateGravityEffectsFp_overflow :
    fpHeavy.mass = Fp.fin 9999999999999999438119489974413630815797154428513196965888 ∧ fpUnit.mass = Fp.fin 1 ∧
    (calculateGravityEffectsFp sqrtOnSquares [fpHeavy, fpUnit]).map (fun b => b.acceleration)
      = [⟨Fp.fin (12909393 / 77371252455336267181195264), Fp.fin 0⟩, ⟨Fp.inf true, Fp.nan⟩] := by
  refine ⟨by simp only [fpHeavy, Body.newFp, fpEval3], rfl, ?_⟩
  rw [calculateGravityEffectsFp_pair]
  simp only [pairStepFp, fpHeavy, fpUnit, Body.newFp, List.getElem?_cons_zero,
    List.getElem?_cons_succ, Vector2f.subFp, Vector2f.divFp, Vector2f.mulFp, Vector2f.negFp,
    Vector2f.addFp, addAccelerationFp, List.set_cons_zero, List.set_cons_succ, GFp, PIXEL_KMFp,
    Bool.false_eq_true, if_false, List.map_cons, List.map_nil,
    fpEval1, fpEval2, fpEval3, fpEval4, fpEval5, fpEval6, fpEval7, fpEval8, fpEval9, fpEval10,
    fpEval11, fpEval12, fpEval13, fpEval14, fpEval15, fpEval16, fpEval17, fpEval18, fpEval19,
    fpEval20, fpEval21, fpEval22, fpEval23, fpEval24, fpEval25, fpEval26, fpEval27, fpEval28,
    fpEval29, fpEval30, fpEval31, fpEval32, fpEval33, fpEval34, fpEval35, fpEval36, fpEval37,
    fpEval38, fpEval39, fpEval40, fpEval41, fpEval42, fpEval43, fpEval44, fpEval45, fpEval46,
    fpEval47, fpEval48, fpEval49, fpEval50]

/-- C18 as stated fails on the code's arithmetic: with the strictly positive masses `1e-30`
at `(0, 0)` and `(1, 0)`, squared separation 1, the magnitude `(float)(G * 1e-30 / r_sq_km)`
underflows to zero and the solver leaves both accelerations equal to `(0, 0)`. -/
theorem calculateGravityEffectsFp_underflow :
    fpLightA.mass = Fp.fin ((178405961588245 / 178405961588244985132285746181186892047843328)) ∧ fpLightB.mass = Fp.fin ((178405961588245 / 178405961588244985132285746181186892047843328)) ∧
    (0 : ℚ) < (178405961588245 / 178405961588244985132285746181186892047843328) ∧
    (calculateGravityEffectsFp sqrtOnSquares [fpLightA, fpLightB]).map
        (fun b => b.acceleration)
      = [⟨Fp.fin 0, Fp.fin 0⟩, ⟨Fp.fin 0, Fp.fin 0⟩] := by
  refine ⟨by simp only [fpLightA, Body.newFp, fpEval31],
    by simp only [fpLightB, Body.newFp, fpEval31], by norm_num, ?_⟩
  rw [calculateGravityEffectsFp_pair]
  simp only [pairStepFp, fpLightA, fpLightB, Body.newFp, List.getElem?_cons_zero,
    List.getElem?_cons_succ, Vector2f.subFp, Vector2f.divFp, Vector2f.mulFp, Vector2f.negFp,
    Vector2f.addFp, addAccelerationFp, List.set_cons_zero, List.set_cons_succ, GFp, PIXEL_KMFp,
    Bool.false_eq_true, if_false, List.map_cons, List.map_nil,
    fpEval1, fpEval2, fpEval3, fpEval4, fpEval5, fpEval6, fpEval7, fpEval8, fpEval9, fpEval10,
    fpEval11, fpEval12, fpEval13, fpEval14, fpEval15, fpEval16, fpEval17, fpEval18, fpEval19,
    fpEval20, fpEval21, fpEval22, fpEval23, fpEval24, fpEval25, fpEval26, fpEval27, fpEval28,
    fpEval29, fpEval30, fpEval31, fpEval32, fpEval33, fpEval34, fpEval35, fpEval36, fpEval37,
    fpEval38, fpEval39, fpEval40, fpEval41, fpEval42, fpEval43, fpEval44, fpEval45, fpEval46,
    fpEval47, fpEval48, fpEval49, fpEval50]

/-- One call `updatePos(1)` leaves the sample body as it is: the step `1/40000` is below half
a unit in the last place of 960 and of 540, and the trail flag is off. -/
theorem updatePosFp_absorbed (elapsed now : Fp) :
    fpMover.updatePosFp (Fp.fin 1) elapsed now = fpMover := by
  simp only [Body.updatePosFp, Body.updateTrailFp, fpMover, Body.newFp, Vector2f.addFp,
    Vector2f.mulFp, Vector2f.divFp, PIXEL_KMFp, Bool.not_false, if_true,
    fpEval1, fpEval2, fpEval3, fpEval4, fpEval5, fpEval6, fpEval7, fpEval8, fpEval9, fpEval10,
    fpEval11, fpEval12, fpEval13, fpEval14, fpEval15, fpEval16, fpEval17, fpEval18, fpEval19,
    fpEval20, fpEval21, fpEval22, fpEval23, fpEval24, fpEval25, fpEval26, fpEval27, fpEval28,
    fpEval29, fpEval30, fpEval31, fpEval32, fpEval33, fpEval34, fpEval35, fpEval36, fpEval37,
    fpEval38, fpEval39, fpEval40, fpEval41, fpEval42, fpEval43, fpEval44, fpEval45, fpEval46,
    fpEval47, fpEval48, fpEval49, fpEval50]

/-- C8 as stated fails on the code's arithmetic: for the body at `(960, 540)` with velocity
`(1/2, -1/2)` and zero acceleration, two calls `updatePos(1)` leave the position at
`(960, 540)`, each step being absorbed by the rounding of the sum, while the single call
`updatePos(2)` moves it by one unit in the last place; neither is the exact
`(960 + 1/20000, 540 - 1/20000)`. -/
theorem updatePosFp_split_differs :
    fpMover.acceleration = ⟨Fp.fin 0, Fp.fin 0⟩ ∧
    ((fpMover.updatePosFp (Fp.fin 1) (Fp.fin 1) (Fp.fin 1)).updatePosFp (Fp.fin 1) (Fp.fin 1)
        (Fp.fin 2)).position = ⟨Fp.fin 960, Fp.fin 540⟩ ∧
    (fpMover.updatePosFp (Fp.fin 2) (Fp.fin 1) (Fp.fin 1)).position = ⟨Fp.fin (15728641 / 16384), Fp.fin (8847359 / 16384)⟩ ∧
    (⟨Fp.fin 960, Fp.fin 540⟩ : Vector2f Fp) ≠ ⟨Fp.fin (15728641 / 16384), Fp.fin (8847359 / 16384)⟩ := by
  refine ⟨rfl, ?_, ?_, ?_⟩
  · rw [updatePosFp_absorbed, updatePosFp_absorbed]
    rfl
  · simp only [Body.updatePosFp, Body.updateTrailFp, fpMover, Body.newFp, Vector2f.addFp,
      Vector2f.mulFp, Vector2f.divFp, PIXEL_KMFp, Bool.not_false, if_true,
    fpEval1, fpEval2, fpEval3, fpEval4, fpEval5, fpEval6, fpEval7, fpEval8, fpEval9, fpEval10,
    fpEval11, fpEval12, fpEval13, fpEval14, fpEval15, fpEval16, fpEval17, fpEval18, fpEval19,
    fpEval20, fpEval21, fpEval22, fpEval23, fpEval24, fpEval25, fpEval26, fpEval27, fpEval28,
    fpEval29, fpEval30, fpEval31, fpEval32, fpEval33, fpEval34, fpEval35, fpEval36, fpEval37,
    fpEval38, fpEval39, fpEval40, fpEval41, fpEval42, fpEval43, fpEval44, fpEval45, fpEval46,
    fpEval47, fpEval48, fpEval49, fpEval50]
  · intro h
    have hx := congrArg Vector2f.x h
    simp only [Vector2f.mk.injEq, Fp.fin.injEq] at hx
    norm_num at hx

end FloatingPointRuns


/-! ## Floating-point solver: no division by zero -/

section FloatChecked

theorem roundHalfEven_ge (x : ℚ) (K : ℤ) (h : (K : ℚ) ≤ x) : K ≤ roundHalfEven x := by
  have hf : K ≤ ⌊x⌋ := Int.le_floor.mpr h
  unfold roundHalfEven
  split_ifs <;> omega

theorem roundHalfEven_le (x : ℚ) (K : ℤ) (h : x ≤ (K : ℚ)) : roundHalfEven x ≤ K := by
  unfold roundHalfEven
  by_cases hx : x - ⌊x⌋ < 1 / 2
  · rw [if_pos hx]
    have : (⌊x⌋ : ℚ) ≤ K := le_trans (Int.floor_le x) h
    exact_mod_cast this
  · have hlt : (⌊x⌋ : ℚ) < K := by
      have := Int.floor_le x
      push_neg at hx
      linarith
    have hlt' : ⌊x⌋ < K := by exact_mod_cast hlt
    rw [if_neg hx]
    split_ifs <;> omega

/-- Rounding keeps a magnitude of at least 1 away from zero. -/
theorem Format.round_awayFromZero (fmt : Format) (hp : 1 ≤ fmt.prec) (hemax : 1 ≤ fmt.emax)
    (q : ℚ) (hq : 1 ≤ |q|) : (fmt.round q).awayFromZero = true := by
  have hpos : (0 : ℚ) < |q| := lt_of_lt_of_le one_pos hq
  have hq0 : q ≠ 0 := abs_pos.mp hpos
  have hlog0 : 0 ≤ Int.log 2 |q| :=
    (Int.zpow_le_iff_le_log (by norm_num) hpos).mp (by simpa using hq)
  have hle : ((2 : ℕ) : ℚ) ^ Int.log 2 |q| ≤ |q| := Int.zpow_log_le_self (by norm_num) hpos
  have hle' : (2 : ℚ) ^ Int.log 2 |q| ≤ |q| := by exact_mod_cast hle
  have hone : (1 : ℚ) ≤ (2 : ℚ) ^ Int.log 2 |q| := one_le_zpow₀ (by norm_num) hlog0
  unfold Format.round
  rw [if_neg hq0]
  simp only [max_eq_left (show 1 - fmt.emax ≤ Int.log 2 |q| by omega)]
  set e := Int.log 2 |q| with he
  set quantum : ℚ := (2 : ℚ) ^ (e - ((fmt.prec : ℤ) - 1)) with hquantum
  have hqpos : 0 < quantum := by positivity
  have hK : ((2 ^ (fmt.prec - 1) : ℕ) : ℚ) * quantum = (2 : ℚ) ^ e := by
    rw [hquantum]
    push_cast
    rw [← zpow_natCast, ← zpow_add₀ (by norm_num)]
    congr 1
    have : ((fmt.prec - 1 : ℕ) : ℤ) = (fmt.prec : ℤ) - 1 := by omega
    rw [this]
    ring
  split
  · rfl
  · simp only [Fp.awayFromZero, decide_eq_true_eq]
    rcases le_or_lt 0 q with hsign | hsign
    · rw [abs_of_nonneg hsign] at hle'
      have hx : (((2 ^ (fmt.prec - 1) : ℕ) : ℤ) : ℚ) ≤ q / quantum := by
        rw [le_div_iff₀ hqpos]
        push_cast
        push_cast at hK
        rw [hK]
        exact hle'
      have hn := roundHalfEven_ge _ _ hx
      have hn' : ((2 ^ (fmt.prec - 1) : ℕ) : ℚ) ≤ (roundHalfEven (q / quantum) : ℚ) := by
        exact_mod_cast hn
      have hr : (2 : ℚ) ^ e ≤ (roundHalfEven (q / quantum) : ℚ) * quantum := by
        rw [← hK]
        exact mul_le_mul_of_nonneg_right hn' (le_of_lt hqpos)
      exact le_trans hone (le_trans hr (le_abs_self _))
    · rw [abs_of_neg hsign] at hle'
      have hx : q / quantum ≤ ((-((2 ^ (fmt.prec - 1) : ℕ) : ℤ) : ℤ) : ℚ) := by
        rw [div_le_iff₀ hqpos]
        push_cast
        push_cast at hK
        rw [neg_mul, hK]
        linarith
      have hn := roundHalfEven_le _ _ hx
      have hn' : (roundHalfEven (q / quantum) : ℚ) ≤ -((2 ^ (fmt.prec - 1) : ℕ) : ℚ) := by
        exact_mod_cast hn
      have hr : (roundHalfEven (q / quantum) : ℚ) * quantum ≤ -(2 : ℚ) ^ e := by
        rw [← hK, ← neg_mul]
        exact mul_le_mul_of_nonneg_right hn' (le_of_lt hqpos)
      have : (2 : ℚ) ^ e ≤ -((roundHalfEven (q / quantum) : ℚ) * quantum) := by linarith
      exact le_trans hone (le_trans this (neg_le_abs _))

theorem Fp.mul_awayFromZero (fmt : Format) (hp : 1 ≤ fmt.prec) (hemax : 1 ≤ fmt.emax)
    (a b : Fp) (ha : a.awayFromZero = true) (hb : b.awayFromZero = true) :
    (Fp.mul fmt a b).awayFromZero = true := by
  cases a with
  | nan => simp [Fp.mul, Fp.awayFromZero]
  | inf s =>
    cases b with
    | nan => simp [Fp.mul, Fp.awayFromZero]
    | inf t => simp [Fp.mul, Fp.awayFromZero]
    | fin y =>
      simp only [Fp.mul]
      split <;> rfl
  | fin x =>
    cases b with
    | nan => simp [Fp.mul, Fp.awayFromZero]
    | inf t =>
      simp only [Fp.mul]
      split <;> rfl
    | fin y =>
      simp only [Fp.awayFromZero, decide_eq_true_eq] at ha hb
      simp only [Fp.mul]
      apply Format.round_awayFromZero fmt hp hemax
      rw [abs_mul]
      exact one_le_mul_of_one_le_of_one_le ha hb

theorem Fp.ne_zero_of_awayFromZero (a : Fp) (ha : a.awayFromZero = true) : a ≠ Fp.fin 0 := by
  intro h
  subst h
  norm_num [Fp.awayFromZero] at ha

theorem PIXEL_KMFp_awayFromZero : PIXEL_KMFp.awayFromZero = true :=
  Format.round_awayFromZero binary32 (by norm_num [binary32]) (by norm_num [binary32]) 20000
    (by norm_num [le_abs])

/-- Past the guard the pair step in floating-point arithmetic divides by values that are not
zero, so the checked pair step returns the result of the unchecked one. -/
theorem pairStepFpChecked_eq (sqrt : Fp → Fp)
    (hsqrt : ∀ x : Fp, Fp.lt x (Fp.fin 1) = false → (sqrt x).awayFromZero = true)
    (bodies : List (Body Fp)) (i j : Nat) :
    pairStepFpChecked sqrt bodies i j = some (pairStepFp sqrt bodies i j) := by
  unfold pairStepFpChecked pairStepFp
  split
  · dsimp only
    split
    · rfl
    · rename_i hfar
      have hr := hsqrt _ (by simpa using hfar)
      have hkm := Fp.mul_awayFromZero binary32 (by norm_num [binary32]) (by norm_num [binary32])
        _ _ hr PIXEL_KMFp_awayFromZero
      have hsq := Fp.mul_awayFromZero binary32 (by norm_num [binary32])
        (by norm_num [binary32]) _ _ hkm hkm
      simp only [Fp.divChecked, Vector2f.divFpChecked,
        if_neg (Fp.ne_zero_of_awayFromZero _ hr), if_neg (Fp.ne_zero_of_awayFromZero _ hsq),
        Option.bind_eq_bind, Option.some_bind, Option.pure_def]
  · rfl

theorem foldlM_pairStepFpChecked_eq (sqrt : Fp → Fp)
    (hsqrt : ∀ x : Fp, Fp.lt x (Fp.fin 1) = false → (sqrt x).awayFromZero = true)
    (i : Nat) (js : List Nat) (bodies : List (Body Fp)) :
    js.foldlM (fun bs j => pairStepFpChecked sqrt bs i j) bodies
      = some (js.foldl (fun bs j => pairStepFp sqrt bs i j) bodies) := by
  induction js generalizing bodies with
  | nil => rfl
  | cons j js ih =>
    rw [List.foldlM_cons, pairStepFpChecked_eq sqrt hsqrt, List.foldl_cons]
    exact ih _

theorem foldlM_innerLoopFpChecked_eq (sqrt : Fp → Fp)
    (hsqrt : ∀ x : Fp, Fp.lt x (Fp.fin 1) = false → (sqrt x).awayFromZero = true)
    (is : List Nat) (bodies : List (Body Fp)) :
    is.foldlM (fun bs i => innerLoopFpChecked sqrt bs i) bodies
      = some (is.foldl (fun bs i => innerLoopFp sqrt bs i) bodies) := by
  induction is generalizing bodies with
  | nil => rfl
  | cons i is ih =>
    have hstep : innerLoopFpChecked sqrt bodies i = some (innerLoopFp sqrt bodies i) := by
      unfold innerLoopFpChecked innerLoopFp
      exact foldlM_pairStepFpChecked_eq sqrt hsqrt i _ bodies
    rw [List.foldlM_cons, hstep, List.foldl_cons]
    exact ih _

/-- The floating-point solver with checked division never takes the error branch. -/
theorem calculateGravityEffectsFpChecked_eq (sqrt : Fp → Fp)
    (hsqrt : ∀ x : Fp, Fp.lt x (Fp.fin 1) = false → (sqrt x).awayFromZero = true)
    (bodies : List (Body Fp)) :
    calculateGravityEffectsFpChecked sqrt bodies
      = some (calculateGravityEffectsFp sqrt bodies) := by
  unfold calculateGravityEffectsFpChecked calculateGravityEffectsFp
  exact foldlM_innerLoopFpChecked_eq sqrt hsqrt _ _

/-- The square root of the concrete runs sends every value that passes the guard to a value
away from zero. -/
theorem sqrtOnSquares_awayFromZero (x : Fp) (h : Fp.lt x (Fp.fin 1) = false) :
    (sqrtOnSquares x).awayFromZero = true := by
  cases x with
  | nan => rfl
  | inf s =>
    simp only [Fp.lt] at h
    subst h
    rfl
  | fin q =>
    simp only [Fp.lt, decide_eq_false_iff_not, not_lt] at h
    simp only [sqrtOnSquares]
    rw [if_neg (by linarith)]
    apply Format.round_awayFromZero binary32 (by norm_num [binary32]) (by norm_num [binary32])
    exact le_trans (one_le_rat_sqrt q h) (le_abs_self _)

end FloatChecked

/-! ## Gravity solver: no division by zero, in both arithmetics -/

section NoDivisionByZero
variable {F : Type} [LinearOrderedField F]

/-- C12 (as amended): no division by zero in the solver.  Past the guard `r_sq >= 1` every
divisor is non-zero (`r >= 1` and `r_sq_km >= 20000^2` for a square root that sends every
value at least 1 to a value at least 1), and on every collection, coincident bodies
included, the solver with checked division never takes the error branch: it returns the
result of `calculateGravityEffects`.  This holds in exact arithmetic and in the code's
floating-point arithmetic, for every square root whose value at an argument that passes the
guard is NaN, an infinity or of magnitude at least 1. -/
theorem no_division_by_zero (sqrt : F → F) (hsqrt : ∀ x : F, 1 ≤ x → 1 ≤ sqrt x) :
    (∀ x : F, 1 ≤ x →
      1 ≤ sqrt x ∧ sqrt x ≠ 0 ∧
      (20000 : F) ^ 2 ≤ sqrt x * PIXEL_KM F * (sqrt x * PIXEL_KM F) ∧
      sqrt x * PIXEL_KM F * (sqrt x * PIXEL_KM F) ≠ 0) ∧
    (∀ bodies : List (Body F),
      calculateGravityEffectsChecked sqrt bodies
        = some (calculateGravityEffects sqrt bodies)) ∧
    (∀ sqrtFp : Fp → Fp,
      (∀ x : Fp, Fp.lt x (Fp.fin 1) = false → (sqrtFp x).awayFromZero = true) →
      ∀ bodies : List (Body Fp),
        calculateGravityEffectsFpChecked sqrtFp bodies
          = some (calculateGravityEffectsFp sqrtFp bodies)) := by
  refine ⟨divisors_ne_zero sqrt hsqrt, ?_, ?_⟩
  · intro bodies
    unfold calculateGravityEffectsChecked calculateGravityEffects
    exact foldlM_innerLoopChecked_eq sqrt hsqrt _ _
  · intro sqrtFp hFp bodies
    exact calculateGravityEffectsFpChecked_eq sqrtFp hFp bodies

theorem no_division_by_zero_witness :
    calculateGravityEffectsChecked Rat.sqrt [sampleA, sampleA, sampleB, sampleNear]
      = some (calculateGravityEffects Rat.sqrt [sampleA, sampleA, sampleB, sampleNear]) ∧
    calculateGravityEffectsFpChecked sqrtOnSquares [fpHeavy, fpUnit, fpHeavy]
      = some (calculateGravityEffectsFp sqrtOnSquares [fpHeavy, fpUnit, fpHeavy]) :=
  ⟨(no_division_by_zero Rat.sqrt one_le_rat_sqrt).2.1 [sampleA, sampleA, sampleB, sampleNear],
   (no_division_by_zero Rat.sqrt one_le_rat_sqrt).2.2 sqrtOnSquares sqrtOnSquares_awayFromZero
     [fpHeavy, fpUnit, fpHeavy]⟩

end NoDivisionByZero

end NBody
